import Mathlib

/-!
# Resource state tracking

A shallow embedding of `src/resource_state_tracker.h`.

* Resource states (`D3D12_RESOURCE_STATES`), subresource indices (`uint32`) and resource
  identities (`ID3D12Resource*`) are natural numbers.
* `std::vector<D3D12_RESOURCE_STATES>` is a list of elements together with its capacity.
* `assert` is modelled as enabled: a failed assertion ends the call with `fault.assertion`.
-/

namespace dx_resource_state_tracker

/-- The constant `D3D12_RESOURCE_BARRIER_ALL_SUBRESOURCES` of d3d12.h, `0xffffffff`. -/
def D3D12_RESOURCE_BARRIER_ALL_SUBRESOURCES : Nat := 0xffffffff

/-- The constant `D3D12_RESOURCE_STATE_COMMON` of d3d12.h, `0`. -/
def D3D12_RESOURCE_STATE_COMMON : Nat := 0

/-- The ways a call can end other than by returning. -/
inductive fault where
  /-- An `assert` whose condition is false. -/
  | assertion
  /-- An `operator[]` access at an index that is not below `size()`. -/
  | out_of_bounds
  deriving DecidableEq, Repr

deriving instance DecidableEq for Except

/-- A `std::vector<D3D12_RESOURCE_STATES>`: its elements (so `size()` is their number) and its
`capacity()`. -/
structure std_vector where
  elems : List Nat
  cap : Nat
  deriving DecidableEq, Repr

namespace std_vector

/-- `size()`. -/
def size (v : std_vector) : Nat := v.elems.length

/-- `capacity()`. -/
def capacity (v : std_vector) : Nat := v.cap

/-- `empty()`. -/
def empty (v : std_vector) : Bool := v.elems.isEmpty

/-- `reserve(n)`: storage for exactly `n` elements is allocated when `n` exceeds the capacity
(what the MSVC, libstdc++ and libc++ implementations do); otherwise nothing happens. -/
def reserve (v : std_vector) (n : Nat) : std_vector :=
  if v.cap < n then { v with cap := n } else v

/-- `clear()`: the elements are removed, the capacity is kept. -/
def clear (v : std_vector) : std_vector := { v with elems := [] }

/-- `resize(n, value)`: truncates to `n` elements, or appends copies of `value` up to `n`
elements (growing the capacity when `n` exceeds it). -/
def resize (v : std_vector) (n value : Nat) : std_vector :=
  if n ≤ v.elems.length then { v with elems := v.elems.take n }
  else { elems := v.elems ++ List.replicate (n - v.elems.length) value, cap := max v.cap n }

/-- The assignment `v[i] = value`; `none` when `i` is not below `size()`. -/
def assign (v : std_vector) (i value : Nat) : Option std_vector :=
  if i < v.elems.length then some { v with elems := v.elems.set i value } else none

end std_vector

/-- The struct `resource_state`: a whole-resource state and the per-subresource states. -/
structure resource_state where
  state : Nat
  subresourceStates : std_vector
  deriving DecidableEq, Repr

namespace resource_state

/-- The method `resource_state::initialize(numSubResources, state)` (the name is a Lean keyword,
hence the trailing underscore). -/
def initialize_ (r : resource_state) (numSubResources : Nat)
    (state : Nat := D3D12_RESOURCE_STATE_COMMON) : resource_state :=
  { state := state, subresourceStates := r.subresourceStates.reserve numSubResources }

/-- The method `resource_state::setSubresourceState(subresource, state)`. -/
def setSubresourceState (r : resource_state) (subresource state : Nat) :
    Except fault resource_state :=
  if subresource = D3D12_RESOURCE_BARRIER_ALL_SUBRESOURCES then
    .ok { state := state, subresourceStates := r.subresourceStates.clear }
  else if subresource < r.subresourceStates.capacity then
    let v :=
      if r.subresourceStates.empty then
        r.subresourceStates.resize r.subresourceStates.capacity r.state
      else r.subresourceStates
    match v.assign subresource state with
    | some w => .ok { r with subresourceStates := w }
    | none => .error fault.out_of_bounds
  else .error fault.assertion

/-- The method `resource_state::getSubresourceState(subresource)`. -/
def getSubresourceState (r : resource_state) (subresource : Nat) : Except fault Nat :=
  if !r.subresourceStates.empty then
    if h : subresource < r.subresourceStates.elems.length then
      .ok (r.subresourceStates.elems[subresource])
    else .error fault.assertion
  else .ok r.state

/-- A finite sequence of `setSubresourceState` calls, each given as (subresource, state), made
in order on one record; it stops at the first call that does not return. -/
def setSequence : resource_state → List (Nat × Nat) → Except fault resource_state
  | r, [] => .ok r
  | r, c :: calls =>
    match r.setSubresourceState c.1 c.2 with
    | .ok r1 => setSequence r1 calls
    | .error e => .error e

end resource_state

/-- A transition `D3D12_RESOURCE_BARRIER`: the resource, the subresource index (or
`D3D12_RESOURCE_BARRIER_ALL_SUBRESOURCES`) and the states before and after. -/
structure resource_barrier where
  pResource : Nat
  Subresource : Nat
  StateBefore : Nat
  StateAfter : Nat
  deriving DecidableEq, Repr

/-- Modelled from the spec: an entry of the Pending Barrier List (§3), a transition whose
before-state is not known at record time. The layout of the entries of
`pendingResourceBarriers` is fixed by resource_state_tracker.cpp, which is not part of the
sources. -/
structure pending_barrier where
  pResource : Nat
  Subresource : Nat
  StateAfter : Nat
  deriving DecidableEq, Repr

/-- A `std::unordered_map<ID3D12Resource*, resource_state>`: its (resource, record) entries.
The record of a resource is the one of its first entry; the operations below keep at most one
entry per resource. -/
structure state_table where
  entries : List (Nat × resource_state)
  deriving DecidableEq, Repr

namespace state_table

/-- The record of `resource` among the entries, if there is one. -/
def findEntry : List (Nat × resource_state) → Nat → Option resource_state
  | [], _ => none
  | e :: es, resource => if resource = e.1 then some e.2 else findEntry es resource

/-- The lookup `m.find(resource)`: the record of `resource`, or `none` when the table has no
entry for it. A table applied to a resource, `m resource`, is this lookup. -/
def find (m : state_table) (resource : Nat) : Option resource_state :=
  findEntry m.entries resource

instance : CoeFun state_table (fun _ => Nat → Option resource_state) := ⟨find⟩

/-- The table without entries. -/
def empty : state_table := ⟨[]⟩

/-- The table `m` without the entry of `resource` (`m.erase(resource)`). -/
def erase (m : state_table) (resource : Nat) : state_table :=
  ⟨m.entries.filter (fun e => !decide (e.1 = resource))⟩

/-- The table `m` with the record of `resource` set to `r` (`m[resource] = r`). -/
def insert (m : state_table) (resource : Nat) (r : resource_state) : state_table :=
  ⟨(resource, r) :: (m.erase resource).entries⟩

end state_table

end dx_resource_state_tracker

/-- The per-recording data members of `dx_resource_state_tracker`: the resolved barriers, the
pending barriers and the per-recording table. The static member `globalResourceState` is passed
to the operations that use it. -/
structure dx_resource_state_tracker where
  resourceBarriers : List dx_resource_state_tracker.resource_barrier
  pendingResourceBarriers : List dx_resource_state_tracker.pending_barrier
  finalResourceState : dx_resource_state_tracker.state_table

namespace dx_resource_state_tracker

/-- Modelled from the spec: the tracker of a fresh recording (§3: the Per-Recording Table is
created empty at the start of each recording), with both barrier lists empty. -/
def fresh : dx_resource_state_tracker :=
  { resourceBarriers := [], pendingResourceBarriers := [], finalResourceState := state_table.empty }

/-- Modelled from the spec: the resolved transitions of §4.1 `requestTransition` taken
subresource by subresource, for the subresources `k, k+1, ...` with recorded states `states`:
one barrier, before = recorded state, for each subresource whose recorded state is not
already `stateAfter`. -/
def subresourceTransitions (resource stateAfter : Nat) : Nat → List Nat → List resource_barrier
  | _, [] => []
  | k, s :: states =>
    if s = stateAfter then subresourceTransitions resource stateAfter (k + 1) states
    else ⟨resource, k, s, stateAfter⟩ :: subresourceTransitions resource stateAfter (k + 1) states

/-- Modelled from the spec: `transitionResource`, whose body is in resource_state_tracker.cpp
(not part of the sources), after §4.1 `requestTransition`. `numSubResources` is the subresource
count of the resource (§2: a resource handle carries it; §6: it reaches the tracked-transition
logic with either overload).

* Resource absent from the per-recording table: a pending barrier is recorded and a new record
  with `stateAfter` is inserted.
* Resource present: the recorded state of the subresource is read; if it equals `stateAfter`
  nothing happens, otherwise a resolved transition (before = recorded state) is emitted and the
  record is updated.
* Edge case policy: with the all-subresources sentinel on a record holding per-subresource
  states, the per-subresource states are read one by one and the record is replaced by the
  uniform one. -/
def transitionResource (t : dx_resource_state_tracker) (resource numSubResources stateAfter : Nat)
    (subResource : Nat := D3D12_RESOURCE_BARRIER_ALL_SUBRESOURCES) :
    Except fault dx_resource_state_tracker :=
  match t.finalResourceState resource with
  | none =>
    .ok { t with
      pendingResourceBarriers :=
        t.pendingResourceBarriers ++ [⟨resource, subResource, stateAfter⟩]
      finalResourceState :=
        t.finalResourceState.insert resource
          (resource_state.initialize_ ⟨D3D12_RESOURCE_STATE_COMMON, ⟨[], 0⟩⟩
            numSubResources stateAfter) }
  | some r =>
    if subResource = D3D12_RESOURCE_BARRIER_ALL_SUBRESOURCES ∧ r.subresourceStates.empty = false
    then
      match r.setSubresourceState subResource stateAfter with
      | .ok r1 =>
        .ok { t with
          resourceBarriers :=
            t.resourceBarriers ++
              subresourceTransitions resource stateAfter 0 r.subresourceStates.elems
          finalResourceState := t.finalResourceState.insert resource r1 }
      | .error e => .error e
    else
      match r.getSubresourceState subResource with
      | .error e => .error e
      | .ok recorded =>
        if recorded = stateAfter then .ok t
        else
          match r.setSubresourceState subResource stateAfter with
          | .ok r1 =>
            .ok { t with
              resourceBarriers :=
                t.resourceBarriers ++ [⟨resource, subResource, recorded, stateAfter⟩]
              finalResourceState := t.finalResourceState.insert resource r1 }
          | .error e => .error e

/-- A sequence of `transitionResource` calls on one resource and one subresource, one call per
requested state, in order; it stops at the first call that fails. -/
def transitionSequence (resource numSubResources subResource : Nat) :
    dx_resource_state_tracker → List Nat → Except fault dx_resource_state_tracker
  | t, [] => .ok t
  | t, stateAfter :: rest =>
    match transitionResource t resource numSubResources stateAfter subResource with
    | .ok t1 => transitionSequence resource numSubResources subResource t1 rest
    | .error e => .error e

/-- Modelled from the spec: the resolution of one pending barrier in §4.1 `flushPending`: its
before-state is looked up in the global table. A resource without global record is the
unregistered-resource access of §7 (an assertion). -/
def resolvePending (globalResourceState : state_table) (p : pending_barrier) :
    Except fault resource_barrier :=
  match globalResourceState p.pResource with
  | none => .error fault.assertion
  | some g =>
    match g.getSubresourceState p.Subresource with
    | .ok before => .ok ⟨p.pResource, p.Subresource, before, p.StateAfter⟩
    | .error e => .error e

/-- Modelled from the spec: the pending barriers resolved in order, up to the first failure. -/
def resolvePendingList (globalResourceState : state_table) :
    List pending_barrier → Except fault (List resource_barrier)
  | [] => .ok []
  | p :: rest =>
    match resolvePending globalResourceState p with
    | .error e => .error e
    | .ok b =>
      match resolvePendingList globalResourceState rest with
      | .ok bs => .ok (b :: bs)
      | .error e => .error e

/-- Modelled from the spec: `flushPendingResourceBarriers`, whose body is in
resource_state_tracker.cpp (not part of the sources), after §4.1 `flushPending`: every pending
barrier is resolved against the global table and emitted, the pending list is cleared and the
number of barriers flushed is returned. The command list is the sequence of barriers emitted
into it so far. -/
def flushPendingResourceBarriers (t : dx_resource_state_tracker)
    (globalResourceState : state_table) (commandList : List resource_barrier) :
    Except fault (Nat × dx_resource_state_tracker × List resource_barrier) :=
  match resolvePendingList globalResourceState t.pendingResourceBarriers with
  | .ok bs => .ok (bs.length, { t with pendingResourceBarriers := [] }, commandList ++ bs)
  | .error e => .error e

/-- Modelled from the spec: the copy of one record in §4.1 `commitFinalStates`: an entry of
the global table whose resource has a record in the per-recording table gets that record;
every other entry stays as it is. -/
def overwriteEntry (finalResourceState : state_table) (e : Nat × resource_state) :
    Nat × resource_state :=
  match finalResourceState e.1 with
  | some r => (e.1, r)
  | none => e

/-- Modelled from the spec: the copy of §4.1 `commitFinalStates` over the whole global table:
every entry whose resource has a per-recording record is overwritten with that record. -/
def overwriteEntries (finalResourceState globalResourceState : state_table) : state_table :=
  ⟨globalResourceState.entries.map (overwriteEntry finalResourceState)⟩

/-- Modelled from the spec: `commitFinalResourceStates`, whose body is in
resource_state_tracker.cpp (not part of the sources), after §4.1 `commitFinalStates` and §7:
committing state for a resource that has no entry in the global table is the
unregistered-resource access of §7 (an assertion); otherwise every (resource, record) pair of
the per-recording table is copied into the global table, overwriting the record that was there.
The result is the new global table. -/
def commitFinalResourceStates (t : dx_resource_state_tracker)
    (globalResourceState : state_table) : Except fault state_table :=
  if t.finalResourceState.entries.all (fun e => (globalResourceState e.1).isSome) then
    .ok (overwriteEntries t.finalResourceState globalResourceState)
  else .error fault.assertion

/-- The constant `D3D12_RESOURCE_STATE_RENDER_TARGET` of d3d12.h, `0x4`. -/
def D3D12_RESOURCE_STATE_RENDER_TARGET : Nat := 0x4

/-- The constant `D3D12_RESOURCE_STATE_PIXEL_SHADER_RESOURCE` of d3d12.h, `0x80`. -/
def D3D12_RESOURCE_STATE_PIXEL_SHADER_RESOURCE : Nat := 0x80

/-- Modelled from the spec: `flushResourceBarriers`, whose body is in
resource_state_tracker.cpp (not part of the sources), after §4.1 `flushAll` (§6: "flush
everything"): the pending barriers are flushed, then the resolved barrier list is appended to
the command list and cleared. -/
def flushResourceBarriers (t : dx_resource_state_tracker) (globalResourceState : state_table)
    (commandList : List resource_barrier) :
    Except fault (dx_resource_state_tracker × List resource_barrier) :=
  match flushPendingResourceBarriers t globalResourceState commandList with
  | .ok (_, t1, commandList1) =>
    .ok ({ t1 with resourceBarriers := [] }, commandList1 ++ t1.resourceBarriers)
  | .error e => .error e

/-- Modelled from the spec: the tracker's `initialize()`, whose body is in
resource_state_tracker.cpp (not part of the sources), after §6: it resets the tracker to the
empty state (the name is a Lean keyword, hence the trailing underscore). -/
def initialize_ (_t : dx_resource_state_tracker) : dx_resource_state_tracker :=
  { resourceBarriers := [], pendingResourceBarriers := [], finalResourceState := state_table.empty }

/-- Modelled from the spec: `reset()`, whose body is in resource_state_tracker.cpp (not part of
the sources), after §4.1 (the per-recording table and both barrier lists are cleared) and §6
(every reuse goes through `initialize()`). It has the per-recording members only; the global
table is not among what it writes. -/
def reset (t : dx_resource_state_tracker) : dx_resource_state_tracker :=
  t.initialize_

/-- Modelled from the spec: `addGlobalResourceState`, whose body is in
resource_state_tracker.cpp (not part of the sources), after §4.2 `registerResource` and §7: a
fresh record with the given state and subresource count is inserted; registering an identity
that is already present is an assertion failure. The result is the new global table. -/
def addGlobalResourceState (globalResourceState : state_table)
    (resource state numSubResources : Nat) : Except fault state_table :=
  match globalResourceState resource with
  | some _ => .error fault.assertion
  | none =>
    .ok (globalResourceState.insert resource
      (resource_state.initialize_ ⟨D3D12_RESOURCE_STATE_COMMON, ⟨[], 0⟩⟩ numSubResources state))

/-- Modelled from the spec: `removeGlobalResourceState`, whose body is in
resource_state_tracker.cpp (not part of the sources), after §4.2 `unregisterResource`: the entry
of the resource is erased. The result is the new global table. -/
def removeGlobalResourceState (globalResourceState : state_table) (resource : Nat) :
    state_table :=
  globalResourceState.erase resource

/-- Modelled from the spec: the submission of one recording (§5): its barriers are flushed into
an empty command list (`flushResourceBarriers`), then its final states are committed. The
result is the barriers emitted and the new global table. -/
def submit (t : dx_resource_state_tracker) (globalResourceState : state_table) :
    Except fault (List resource_barrier × state_table) :=
  match flushResourceBarriers t globalResourceState [] with
  | .ok (t1, emitted) =>
    match commitFinalResourceStates t1 globalResourceState with
    | .ok global1 => .ok (emitted, global1)
    | .error e => .error e
  | .error e => .error e

/-- Modelled from the spec: two recordings submitted in sequence under one held lock (§5), `a`
first. The result is the barriers emitted for `a`, those emitted for `b`, and the final global
table. -/
def submitBoth (a b : dx_resource_state_tracker) (globalResourceState : state_table) :
    Except fault (List resource_barrier × List resource_barrier × state_table) :=
  match submit a globalResourceState with
  | .error e => .error e
  | .ok (emittedA, global1) =>
    match submit b global1 with
    | .error e => .error e
    | .ok (emittedB, global2) => .ok (emittedA, emittedB, global2)

/-- The tagged variant of spec §9 for a subresource state record: `Uniform(state)` or
`PerSubresource(sequence)`. -/
inductive tagged_state where
  | Uniform (state : Nat)
  | PerSubresource (states : List Nat)
  deriving DecidableEq, Repr

namespace tagged_state

/-- The write of the tagged-variant model (spec §3), for a record with `numSubResources`
subresources: the sentinel resets to `Uniform`; a specific index on `Uniform(S)` broadcasts `S`
into every slot and sets the slot; a specific index on `PerSubresource` sets the slot. -/
def set (numSubResources : Nat) (m : tagged_state) (subresource state : Nat) : tagged_state :=
  if subresource = D3D12_RESOURCE_BARRIER_ALL_SUBRESOURCES then Uniform state
  else
    match m with
    | Uniform S => PerSubresource ((List.replicate numSubResources S).set subresource state)
    | PerSubresource states => PerSubresource (states.set subresource state)

/-- The lookup of the tagged-variant model (spec §3): the uniform state applies to every
subresource; otherwise the slot of the subresource is read (`none` past the sequence). -/
def get (m : tagged_state) (subresource : Nat) : Option Nat :=
  match m with
  | Uniform S => some S
  | PerSubresource states => states[subresource]?

end tagged_state

/-- The tagged variant a record stands for: `Uniform(state)` when the per-subresource sequence
is empty, `PerSubresource(sequence)` otherwise. -/
def resource_state.toTagged (r : resource_state) : tagged_state :=
  if r.subresourceStates.empty then tagged_state.Uniform r.state
  else tagged_state.PerSubresource r.subresourceStates.elems

end dx_resource_state_tracker

/-! ## Embedding of `src/game.cpp`, `src/model.h` and the shader headers

Unsigned 32-bit values (`uint32`, HLSL `uint`) are natural numbers; arithmetic that can leave the
32-bit range is reduced modulo `2 ^ 32`. -/

/-- The render targets that `dx_game::resize` resizes. -/
inductive render_target_id where
  | gbufferRT
  | lightingRT
  deriving DecidableEq, Repr

/-- The part of `dx_game` that `dx_game::resize` reads and writes: the stored size, and the
calls `resize(width, height)` made on the render targets so far (the class of the render
targets is not part of the sources). The viewport (floats) and `flushApplication()` are left
out. -/
structure dx_game where
  width : Nat
  height : Nat
  renderTargetResizes : List (render_target_id × Nat × Nat)
  deriving DecidableEq, Repr

namespace dx_game

/-- The method `dx_game::resize(width, height)`. -/
def resize (g : dx_game) (width height : Nat) : dx_game :=
  if width ≠ g.width ∨ height ≠ g.height then
    let width1 := max 1 width
    let height1 := max 1 height
    { width := width1
      height := height1
      renderTargetResizes :=
        g.renderTargetResizes ++
          [(render_target_id.gbufferRT, width1, height1),
            (render_target_id.lightingRT, width1, height1)] }
  else g

end dx_game

/-- The struct `indexed_triangle32` of model.h. -/
structure indexed_triangle32 where
  a : Nat
  b : Nat
  c : Nat
  deriving DecidableEq, Repr

/-- A `for (uint32 i = 0; i < n; ++i)` loop over a state: the body runs for `i = 0, ..., n - 1` in
this order. -/
def forLoop {σ : Type} : Nat → (Nat → σ → σ) → σ → σ
  | 0, _, s => s
  | n + 1, body, s => body n (forLoop n body s)

/-- The type `vec2` (two floats). -/
structure vec2 where
  x : Float
  y : Float

/-- The type `vec3` (three floats). -/
structure vec3 where
  x : Float
  y : Float
  z : Float

/-- The struct `vertex_3P` of model.h. -/
structure vertex_3P where
  position : vec3

/-- The struct `vertex_3PUN` of model.h. -/
structure vertex_3PUN where
  position : vec3
  uv : vec2
  normal : vec3

/-- A vertex of the template type `vertex_t`, as far as `cube` writes it: each of the members
position, uv and normal is present only when `vertex_t` has it. -/
structure mesh_vertex where
  position : Option vec3
  uv : Option vec2
  normal : Option vec3

/-- The members of the template parameter `vertex_t` that `cube` asks for with `hasMember`. -/
structure vertex_layout where
  hasPosition : Bool
  hasUV : Bool
  hasNormal : Bool
  deriving DecidableEq, Repr

/-- The members `vertices` and `triangles` of `cpu_mesh<vertex_t>`. -/
structure cpu_mesh where
  vertices : List mesh_vertex
  triangles : List indexed_triangle32

namespace cpu_mesh

/-- The exchange of `b` and `c` made by the body of the winding-order loop of `cube`. -/
def exchangeBC (t : indexed_triangle32) : indexed_triangle32 := ⟨t.a, t.c, t.b⟩

/-- The loop `for (uint32 i = 0; i < arraysize(triangles); ++i)` of `cube` that exchanges
`triangles[i].b` and `triangles[i].c` in place. -/
def invertWinding (triangles : List indexed_triangle32) : List indexed_triangle32 :=
  forLoop triangles.length
    (fun i ts =>
      match ts[i]? with
      | some t => ts.set i (exchangeBC t)
      | none => ts)
    triangles

/-- The calls `setPosition`, `setUV` and `setNormal` on a value-initialised vertex of
`vertex_t`: each sets its member when `vertex_t` has it. -/
def setMembers (layout : vertex_layout) (v : vertex_3PUN) : mesh_vertex :=
  { position := if layout.hasPosition then some v.position else none
    uv := if layout.hasUV then some v.uv else none
    normal := if layout.hasNormal then some v.normal else none }

/-- The function `cpu_mesh::cube(radius, invertWindingOrder)`. -/
def cube (layout : vertex_layout) (radius : Float) (invertWindingOrder : Bool) : cpu_mesh :=
  if layout.hasPosition && !layout.hasUV && !layout.hasNormal then
    let vertices : List vertex_3P :=
      [⟨⟨-radius, -radius, radius⟩⟩, ⟨⟨radius, -radius, radius⟩⟩,
        ⟨⟨-radius, radius, radius⟩⟩, ⟨⟨radius, radius, radius⟩⟩,
        ⟨⟨-radius, -radius, -radius⟩⟩, ⟨⟨radius, -radius, -radius⟩⟩,
        ⟨⟨-radius, radius, -radius⟩⟩, ⟨⟨radius, radius, -radius⟩⟩]
    let triangles : List indexed_triangle32 :=
      [⟨0, 1, 2⟩, ⟨1, 3, 2⟩, ⟨1, 5, 3⟩, ⟨5, 7, 3⟩, ⟨5, 4, 7⟩, ⟨4, 6, 7⟩,
        ⟨4, 0, 6⟩, ⟨0, 2, 6⟩, ⟨2, 3, 6⟩, ⟨3, 7, 6⟩, ⟨4, 5, 0⟩, ⟨5, 1, 0⟩]
    let triangles := if invertWindingOrder then invertWinding triangles else triangles
    { vertices := vertices.map (fun v => ⟨some v.position, none, none⟩)
      triangles := triangles }
  else
    let vertices : List vertex_3PUN :=
      [⟨⟨-radius, -radius, radius⟩, ⟨0, 0⟩, ⟨0, 0, 1⟩⟩,
        ⟨⟨radius, -radius, radius⟩, ⟨1, 0⟩, ⟨0, 0, 1⟩⟩,
        ⟨⟨-radius, radius, radius⟩, ⟨0, 1⟩, ⟨0, 0, 1⟩⟩,
        ⟨⟨radius, radius, radius⟩, ⟨1, 1⟩, ⟨0, 0, 1⟩⟩,
        ⟨⟨radius, -radius, radius⟩, ⟨0, 0⟩, ⟨1, 0, 0⟩⟩,
        ⟨⟨radius, -radius, -radius⟩, ⟨1, 0⟩, ⟨1, 0, 0⟩⟩,
        ⟨⟨radius, radius, radius⟩, ⟨0, 1⟩, ⟨1, 0, 0⟩⟩,
        ⟨⟨radius, radius, -radius⟩, ⟨1, 1⟩, ⟨1, 0, 0⟩⟩,
        ⟨⟨radius, -radius, -radius⟩, ⟨0, 0⟩, ⟨0, 0, -1⟩⟩,
        ⟨⟨-radius, -radius, -radius⟩, ⟨1, 0⟩, ⟨0, 0, -1⟩⟩,
        ⟨⟨radius, radius, -radius⟩, ⟨0, 1⟩, ⟨0, 0, -1⟩⟩,
        ⟨⟨-radius, radius, -radius⟩, ⟨1, 1⟩, ⟨0, 0, -1⟩⟩,
        ⟨⟨-radius, -radius, -radius⟩, ⟨0, 0⟩, ⟨-1, 0, 0⟩⟩,
        ⟨⟨-radius, -radius, radius⟩, ⟨1, 0⟩, ⟨-1, 0, 0⟩⟩,
        ⟨⟨-radius, radius, -radius⟩, ⟨0, 1⟩, ⟨-1, 0, 0⟩⟩,
        ⟨⟨-radius, radius, radius⟩, ⟨1, 1⟩, ⟨-1, 0, 0⟩⟩,
        ⟨⟨-radius, radius, radius⟩, ⟨0, 0⟩, ⟨0, 1, 0⟩⟩,
        ⟨⟨radius, radius, radius⟩, ⟨1, 0⟩, ⟨0, 1, 0⟩⟩,
        ⟨⟨-radius, radius, -radius⟩, ⟨0, 1⟩, ⟨0, 1, 0⟩⟩,
        ⟨⟨radius, radius, -radius⟩, ⟨1, 1⟩, ⟨0, 1, 0⟩⟩,
        ⟨⟨-radius, -radius, -radius⟩, ⟨0, 0⟩, ⟨0, -1, 0⟩⟩,
        ⟨⟨radius, -radius, -radius⟩, ⟨1, 0⟩, ⟨0, -1, 0⟩⟩,
        ⟨⟨-radius, -radius, radius⟩, ⟨0, 1⟩, ⟨0, -1, 0⟩⟩,
        ⟨⟨radius, -radius, radius⟩, ⟨1, 1⟩, ⟨0, -1, 0⟩⟩]
    let triangles : List indexed_triangle32 :=
      [⟨0, 1, 2⟩, ⟨1, 3, 2⟩, ⟨4, 5, 6⟩, ⟨5, 7, 6⟩, ⟨8, 9, 10⟩, ⟨9, 11, 10⟩,
        ⟨12, 13, 14⟩, ⟨13, 15, 14⟩, ⟨16, 17, 18⟩, ⟨17, 19, 18⟩, ⟨20, 21, 22⟩, ⟨21, 23, 22⟩]
    let triangles := if invertWindingOrder then invertWinding triangles else triangles
    { vertices := vertices.map (setMembers layout)
      triangles := triangles }

end cpu_mesh

/-- Addition of `uint32` values. -/
def add32 (x y : Nat) : Nat := (x + y) % 2 ^ 32

/-- Subtraction of `uint32` values (below `2 ^ 32`): it wraps around when `y` exceeds `x`. -/
def sub32 (x y : Nat) : Nat := (x + 2 ^ 32 - y) % 2 ^ 32

/-- Multiplication of `uint32` values. -/
def mul32 (x y : Nat) : Nat := (x * y) % 2 ^ 32

/-- The two heap arrays of `cpu_mesh::sphere` and `cpu_mesh::capsule` with their counters, as
the sequence of writes made so far: `vertexWrites` lists the indices `i` of the writes to
`vertices[i]` (position, normal and uv of one vertex count as one write; the floats written are
left out), `triangleWrites` lists the writes `triangles[i] = t` as pairs `(i, t)`. -/
structure mesh_arrays where
  vertexWrites : List Nat
  vertIndex : Nat
  triangleWrites : List (Nat × indexed_triangle32)
  triIndex : Nat
  deriving DecidableEq, Repr

namespace mesh_arrays

/-- The writes to `vertices[vertIndex]` followed by `++vertIndex`. -/
def writeVertex (m : mesh_arrays) : mesh_arrays :=
  { m with vertexWrites := m.vertexWrites ++ [m.vertIndex], vertIndex := add32 m.vertIndex 1 }

/-- The statement `triangles[triIndex++] = t`. -/
def writeTriangle (m : mesh_arrays) (t : indexed_triangle32) : mesh_arrays :=
  { m with triangleWrites := m.triangleWrites ++ [(m.triIndex, t)], triIndex := add32 m.triIndex 1 }

/-- The loop nest `for y < ringCount: for x < slices: write one vertex` that `sphere` (with
`ringCount = rows`) and `capsule` (twice, with `ringCount = rows / 2 + 1`) use for the rings. -/
def writeRings (ringCount slices : Nat) (m : mesh_arrays) : mesh_arrays :=
  forLoop ringCount (fun _ m => forLoop slices (fun _ m => m.writeVertex) m) m

/-- The index generation ("// Indices.") that `sphere` and `capsule` share word for word except
for the bound of the row loop, `rowBound` (`rows - 1` in `sphere`, `rows` in `capsule`):
the bottom cap, the quads between consecutive rings, the top cap. -/
def writeIndices (slices rowBound : Nat) (m : mesh_arrays) : mesh_arrays :=
  let vertIndex := m.vertIndex
  let m := forLoop (sub32 slices 1)
    (fun x m => m.writeTriangle ⟨0, add32 x 1, add32 x 2⟩) m
  let m := m.writeTriangle ⟨0, slices, 1⟩
  let m := forLoop rowBound
    (fun y m =>
      let m := forLoop (sub32 slices 1)
        (fun x m =>
          let m := m.writeTriangle
            ⟨add32 (add32 (mul32 y slices) 1) x, add32 (add32 (mul32 (add32 y 1) slices) 2) x,
              add32 (add32 (mul32 y slices) 2) x⟩
          m.writeTriangle
            ⟨add32 (add32 (mul32 y slices) 1) x, add32 (add32 (mul32 (add32 y 1) slices) 1) x,
              add32 (add32 (mul32 (add32 y 1) slices) 2) x⟩) m
      let m := m.writeTriangle
        ⟨add32 (mul32 y slices) slices, add32 (mul32 (add32 y 1) slices) 1,
          add32 (mul32 y slices) 1⟩
      m.writeTriangle
        ⟨add32 (mul32 y slices) slices, add32 (mul32 (add32 y 1) slices) slices,
          add32 (mul32 (add32 y 1) slices) 1⟩) m
  let m := forLoop (sub32 slices 1)
    (fun x m =>
      m.writeTriangle
        ⟨sub32 (sub32 vertIndex 2) x, sub32 (sub32 vertIndex 3) x, sub32 vertIndex 1⟩) m
  m.writeTriangle ⟨sub32 (sub32 vertIndex 1) slices, sub32 vertIndex 2, sub32 vertIndex 1⟩

/-- The arrays hold the vertex writes `vertexWrites` and the vertex counter `vertIndex`, and
their `triIndex` triangle writes so far were made at the indices `0, ..., triIndex - 1` in this
order, each triangle with its three indices below `V`. -/
def indexedUpTo (V : Nat) (vertexWrites : List Nat) (vertIndex triIndex : Nat)
    (m : mesh_arrays) : Prop :=
  m.vertexWrites = vertexWrites ∧ m.vertIndex = vertIndex ∧ m.triIndex = triIndex ∧
    m.triangleWrites.map Prod.fst = List.range triIndex ∧
    ∀ w ∈ m.triangleWrites, w.2.a < V ∧ w.2.b < V ∧ w.2.c < V

end mesh_arrays

/-- What `cpu_mesh::sphere` and `cpu_mesh::capsule` leave behind: the sizes of the two arrays
they allocate and the writes made to them. -/
structure generated_mesh where
  vertexCapacity : Nat
  triangleCapacity : Nat
  arrays : mesh_arrays
  deriving DecidableEq, Repr

namespace cpu_mesh

/-- The function `cpu_mesh::sphere(slices, rows, radius)`, for `uint32` arguments: the
allocations, the vertex writes, the index generation and the four assertions (a failed one gives
`none`). The result copies the first `vertIndex` vertices and `triIndex` triangles. -/
def sphere (slices rows : Nat) : Option generated_mesh :=
  if ¬ (slices > 2) then none
  else if ¬ (rows > 0) then none
  else
    let vertexCapacity := add32 (mul32 slices rows) 2
    let triangleCapacity := mul32 (mul32 2 rows) slices
    let m : mesh_arrays := ⟨[], 0, [], 0⟩
    let m := m.writeVertex
    let m := m.writeRings rows slices
    let m := m.writeVertex
    if m.vertIndex ≠ add32 (mul32 slices rows) 2 then none
    else
      let m := m.writeIndices slices (sub32 rows 1)
      if m.triIndex ≠ mul32 (mul32 2 rows) slices then none
      else some ⟨vertexCapacity, triangleCapacity, m⟩

/-- The function `cpu_mesh::capsule(slices, rows, height, radius)`, for `uint32` arguments: the
allocations, the vertex writes, the index generation and the three assertions (a failed one
gives `none`). The result copies the first `vertIndex` vertices and `triIndex` triangles. -/
def capsule (slices rows : Nat) : Option generated_mesh :=
  if ¬ (slices > 2) then none
  else if ¬ (rows > 0) then none
  else if ¬ (rows % 2 = 1) then none
  else
    let vertexCapacity := add32 (mul32 slices (add32 rows 1)) 2
    let triangleCapacity := mul32 (mul32 2 (add32 rows 1)) slices
    let m : mesh_arrays := ⟨[], 0, [], 0⟩
    let m := m.writeVertex
    let m := m.writeRings (add32 (rows / 2) 1) slices
    let m := m.writeRings (add32 (rows / 2) 1) slices
    let m := m.writeVertex
    let m := m.writeIndices slices rows
    some ⟨vertexCapacity, triangleCapacity, m⟩

end cpu_mesh

namespace pbr

/-- The value of `bits` after the five shift-and-mask statements of `radicalInverse_VdC` in
shaders/inc/pbr.h, before the conversion to float. `bits` is an HLSL `uint`; a left shift drops
the bits that leave the 32-bit range. -/
def radicalInverse_VdC_bits (bits : Nat) : Nat :=
  let bits := ((bits <<< 16) % 2 ^ 32) ||| (bits >>> 16)
  let bits := (((bits &&& 0x55555555) <<< 1) % 2 ^ 32) ||| ((bits &&& 0xAAAAAAAA) >>> 1)
  let bits := (((bits &&& 0x33333333) <<< 2) % 2 ^ 32) ||| ((bits &&& 0xCCCCCCCC) >>> 2)
  let bits := (((bits &&& 0x0F0F0F0F) <<< 4) % 2 ^ 32) ||| ((bits &&& 0xF0F0F0F0) >>> 4)
  let bits := (((bits &&& 0x00FF00FF) <<< 8) % 2 ^ 32) ||| ((bits &&& 0xFF00FF00) >>> 8)
  bits

end pbr

namespace pbr_common

/-- The value of `bits` after the five shift-and-mask statements of `radicalInverse_VdC` in
shaders/pbr_common.h, before the conversion to float. -/
def radicalInverse_VdC_bits (bits : Nat) : Nat :=
  let bits := ((bits <<< 16) % 2 ^ 32) ||| (bits >>> 16)
  let bits := (((bits &&& 0x55555555) <<< 1) % 2 ^ 32) ||| ((bits &&& 0xAAAAAAAA) >>> 1)
  let bits := (((bits &&& 0x33333333) <<< 2) % 2 ^ 32) ||| ((bits &&& 0xCCCCCCCC) >>> 2)
  let bits := (((bits &&& 0x0F0F0F0F) <<< 4) % 2 ^ 32) ||| ((bits &&& 0xF0F0F0F0) >>> 4)
  let bits := (((bits &&& 0x00FF00FF) <<< 8) % 2 ^ 32) ||| ((bits &&& 0xFF00FF00) >>> 8)
  bits

end pbr_common

/-- The position whose bit a swap of adjacent blocks of `s` bits moves to position `k`. -/
def swapSource (s k : Nat) : Nat := if k / s % 2 = 0 then k + s else k - s

/-! ## The subresource state record -/

namespace dx_resource_state_tracker

namespace resource_state

theorem initialize_eq (r0 : resource_state) (n S : Nat)
    (hempty : r0.subresourceStates.elems = []) (hcap : r0.subresourceStates.cap ≤ n) :
    r0.initialize_ n S = ⟨S, ⟨[], n⟩⟩ := by
  obtain ⟨s0, ⟨e, c⟩⟩ := r0
  simp only at hempty hcap
  subst hempty
  simp only [initialize_, std_vector.reserve]
  split
  · rfl
  · have : c = n := by omega
    subst this
    rfl

theorem sentinel_not_lt (i n : Nat) (hn : n < 2 ^ 32) (hi : i < n) :
    i ≠ D3D12_RESOURCE_BARRIER_ALL_SUBRESOURCES := by
  unfold D3D12_RESOURCE_BARRIER_ALL_SUBRESOURCES
  omega

/-- A specific-index write on a uniform record with capacity `n`. -/
theorem set_uniform (S n i T : Nat) (hne : i ≠ D3D12_RESOURCE_BARRIER_ALL_SUBRESOURCES)
    (hi : i < n) :
    setSubresourceState ⟨S, ⟨[], n⟩⟩ i T = .ok ⟨S, ⟨(List.replicate n S).set i T, n⟩⟩ := by
  have hpos : ¬ n ≤ 0 := by omega
  simp [setSubresourceState, hne, std_vector.capacity, std_vector.empty, std_vector.resize,
    std_vector.assign, hi, hpos]

/-- A specific-index write on a record holding `n` per-subresource states. -/
theorem set_granular (S n i T : Nat) (l : List Nat) (hl : l.length = n) (hnil : l ≠ [])
    (hne : i ≠ D3D12_RESOURCE_BARRIER_ALL_SUBRESOURCES) (hi : i < n) :
    setSubresourceState ⟨S, ⟨l, n⟩⟩ i T = .ok ⟨S, ⟨l.set i T, n⟩⟩ := by
  simp [setSubresourceState, hne, std_vector.capacity, std_vector.empty, std_vector.assign, hi,
    hl, hnil]

/-- An all-subresources write. -/
theorem set_all (r : resource_state) (U : Nat) :
    r.setSubresourceState D3D12_RESOURCE_BARRIER_ALL_SUBRESOURCES U =
      .ok ⟨U, ⟨[], r.subresourceStates.cap⟩⟩ := by
  simp [setSubresourceState, std_vector.clear]

/-- A lookup on a uniform record. -/
theorem get_uniform (S c j : Nat) : getSubresourceState ⟨S, ⟨[], c⟩⟩ j = .ok S := by
  simp [getSubresourceState, std_vector.empty]

/-- A lookup below the length on a record holding per-subresource states. -/
theorem get_granular (S c j : Nat) (l : List Nat) (hj : j < l.length) :
    getSubresourceState ⟨S, ⟨l, c⟩⟩ j = .ok (l.get ⟨j, hj⟩) := by
  have hnil : l ≠ [] := by
    intro h
    subst h
    simp at hj
  simp [getSubresourceState, std_vector.empty, hnil, hj]

/-- C1 (uniform-to-granular promotion): on a record set up by `initialize(n, S)` (no
per-subresource sequence yet, reserved capacity exactly `n`), `setSubresourceState(i, T)` with
`i < n` returns and leaves a per-subresource sequence of length exactly `n` whose slot `i` is
`T` and whose every other slot is `S`; for `n = 4`, `i = 2` the sequence is `[S, S, T, S]`. -/
theorem promotion (r0 : resource_state) (n S i T : Nat)
    (hempty : r0.subresourceStates.elems = []) (hcap : r0.subresourceStates.cap ≤ n)
    (hn : n < 2 ^ 32) (hi : i < n) :
    ∃ r, (r0.initialize_ n S).setSubresourceState i T = .ok r ∧
      r.subresourceStates.elems.length = n ∧
      r.subresourceStates.elems[i]? = some T ∧
      (∀ j, j < n → j ≠ i → r.subresourceStates.elems[j]? = some S) ∧
      (n = 4 → i = 2 → r.subresourceStates.elems = [S, S, T, S]) := by
  rw [initialize_eq r0 n S hempty hcap, set_uniform S n i T (sentinel_not_lt i n hn hi) hi]
  refine ⟨_, rfl, ?_, ?_, ?_, ?_⟩
  · simp
  · simp [hi]
  · intro j hj hji
    simp [List.getElem?_set, Ne.symm hji, hj]
  · intro h4 h2
    subst h4 h2
    rfl

theorem promotion_witness :
    ∃ r, (initialize_ ⟨0, ⟨[], 0⟩⟩ 4 1).setSubresourceState 2 4 = .ok r ∧
      r.subresourceStates.elems.length = 4 ∧
      r.subresourceStates.elems[2]? = some 4 ∧
      (∀ j, j < 4 → j ≠ 2 → r.subresourceStates.elems[j]? = some 1) ∧
      (4 = 4 → 2 = 2 → r.subresourceStates.elems = [1, 1, 4, 1]) :=
  promotion ⟨0, ⟨[], 0⟩⟩ 4 1 2 4 rfl (by decide) (by norm_num) (by decide)

/-- C2 (collapse back to uniform): on every record, uniform or holding per-subresource states,
`setSubresourceState(ALL_SUBRESOURCES, U)` returns and leaves the whole-resource state equal to
`U` and the per-subresource sequence empty, so that `getSubresourceState(j)` returns `U` for
every index `j` afterwards. -/
theorem collapse (r : resource_state) (U : Nat) :
    ∃ r1, r.setSubresourceState D3D12_RESOURCE_BARRIER_ALL_SUBRESOURCES U = .ok r1 ∧
      r1.state = U ∧ r1.subresourceStates.elems = [] ∧
      ∀ j, r1.getSubresourceState j = .ok U := by
  rw [set_all]
  exact ⟨_, rfl, rfl, rfl, fun j => get_uniform U _ j⟩

/-- C3 (uniform lookup): on a record whose per-subresource sequence is empty,
`getSubresourceState(j)` returns the whole-resource state for every subresource index `j`; no
assertion is evaluated, so no index makes the call fail. -/
theorem uniform_lookup (r : resource_state) (j : Nat)
    (hempty : r.subresourceStates.elems = []) :
    r.getSubresourceState j = .ok r.state := by
  obtain ⟨s, ⟨e, c⟩⟩ := r
  simp only at hempty
  subst hempty
  exact get_uniform s c j

theorem uniform_lookup_witness :
    getSubresourceState ⟨3, ⟨[], 4⟩⟩ 4294967295 = .ok (resource_state.mk 3 ⟨[], 4⟩).state :=
  uniform_lookup ⟨3, ⟨[], 4⟩⟩ 4294967295 rfl

/-- One `setSubresourceState` call with an index below `n` or the sentinel keeps a record with
capacity `n` whose sequence is empty or of length `n` in that shape. -/
theorem set_preserves (r : resource_state) (n idx st : Nat) (hn : n < 2 ^ 32)
    (hcap : r.subresourceStates.cap = n)
    (hlen : r.subresourceStates.elems = [] ∨ r.subresourceStates.elems.length = n)
    (hidx : idx < n ∨ idx = D3D12_RESOURCE_BARRIER_ALL_SUBRESOURCES) :
    ∃ r1, r.setSubresourceState idx st = .ok r1 ∧ r1.subresourceStates.cap = n ∧
      (r1.subresourceStates.elems = [] ∨ r1.subresourceStates.elems.length = n) := by
  obtain ⟨s, ⟨l, c⟩⟩ := r
  simp only at hcap hlen
  subst hcap
  by_cases hall : idx = D3D12_RESOURCE_BARRIER_ALL_SUBRESOURCES
  · subst hall
    rw [set_all]
    exact ⟨_, rfl, rfl, Or.inl rfl⟩
  · have hi : idx < c := by
      rcases hidx with h | h
      · exact h
      · exact absurd h hall
    by_cases hnil : l = []
    · subst hnil
      rw [set_uniform s c idx st hall hi]
      exact ⟨_, rfl, rfl, Or.inr (by simp)⟩
    · have hl : l.length = c := by
        rcases hlen with h | h
        · exact absurd h hnil
        · exact h
      rw [set_granular s c idx st l hl hnil hall hi]
      exact ⟨_, rfl, rfl, Or.inr (by simp [hl])⟩

/-- A sequence of valid `setSubresourceState` calls returns and keeps the shape of the record. -/
theorem setSequence_preserves (n : Nat) (hn : n < 2 ^ 32) (calls : List (Nat × Nat)) :
    ∀ r : resource_state, r.subresourceStates.cap = n →
      (r.subresourceStates.elems = [] ∨ r.subresourceStates.elems.length = n) →
      (∀ c ∈ calls, c.1 < n ∨ c.1 = D3D12_RESOURCE_BARRIER_ALL_SUBRESOURCES) →
      ∃ r1, r.setSequence calls = .ok r1 ∧ r1.subresourceStates.cap = n ∧
        (r1.subresourceStates.elems = [] ∨ r1.subresourceStates.elems.length = n) := by
  induction calls with
  | nil =>
    intro r hcap hlen _
    exact ⟨r, rfl, hcap, hlen⟩
  | cons c calls ih =>
    intro r hcap hlen hcalls
    obtain ⟨r1, h1, hcap1, hlen1⟩ :=
      set_preserves r n c.1 c.2 hn hcap hlen (hcalls c (List.mem_cons_self c calls))
    obtain ⟨r2, h2, hcap2, hlen2⟩ :=
      ih r1 hcap1 hlen1 (fun d hd => hcalls d (List.mem_cons_of_mem c hd))
    refine ⟨r2, ?_, hcap2, hlen2⟩
    simp only [setSequence, h1]
    exact h2

/-- A lookup below `n` returns on a record whose sequence is empty or of length `n`. -/
theorem get_returns (r : resource_state) (n j : Nat)
    (hlen : r.subresourceStates.elems = [] ∨ r.subresourceStates.elems.length = n)
    (hj : j < n) : ∃ s, r.getSubresourceState j = .ok s := by
  obtain ⟨s, ⟨l, c⟩⟩ := r
  simp only at hlen
  rcases hlen with h | h
  · subst h
    exact ⟨s, get_uniform s c j⟩
  · exact ⟨_, get_granular s c j l (by omega)⟩

/-- C4 (representation invariant): starting from `initialize(n, S)` (reserved capacity exactly
`n`), every finite sequence of `setSubresourceState` calls whose index is below `n` or the
ALL_SUBRESOURCES sentinel returns, and in the record obtained the per-subresource sequence is
empty or has length exactly `n`; consequently `getSubresourceState(j)` passes its assertion and
returns a state for every `j < n`. -/
theorem representation_invariant (r0 : resource_state) (n S : Nat) (calls : List (Nat × Nat))
    (hempty : r0.subresourceStates.elems = []) (hcap : r0.subresourceStates.cap ≤ n)
    (hn : n < 2 ^ 32)
    (hcalls : ∀ c ∈ calls, c.1 < n ∨ c.1 = D3D12_RESOURCE_BARRIER_ALL_SUBRESOURCES) :
    ∃ r, (r0.initialize_ n S).setSequence calls = .ok r ∧
      (r.subresourceStates.elems = [] ∨ r.subresourceStates.elems.length = n) ∧
      ∀ j, j < n → ∃ s, r.getSubresourceState j = .ok s := by
  rw [initialize_eq r0 n S hempty hcap]
  obtain ⟨r, hr, _, hlen⟩ :=
    setSequence_preserves n hn calls ⟨S, ⟨[], n⟩⟩ rfl (Or.inl rfl) hcalls
  exact ⟨r, hr, hlen, fun j hj => get_returns r n j hlen hj⟩

theorem representation_invariant_witness :
    ∃ r, (initialize_ ⟨0, ⟨[], 0⟩⟩ 3 1).setSequence
        [(2, 4), (4294967295, 8), (0, 16), (1, 4)] = .ok r ∧
      (r.subresourceStates.elems = [] ∨ r.subresourceStates.elems.length = 3) ∧
      ∀ j, j < 3 → ∃ s, r.getSubresourceState j = .ok s :=
  representation_invariant ⟨0, ⟨[], 0⟩⟩ 3 1 [(2, 4), (4294967295, 8), (0, 16), (1, 4)]
    rfl (by decide) (by norm_num) (by decide)

/-- C5 (out-of-range write is rejected, never clamped): on a record with reserved capacity
`n` and for an index `i` other than the ALL_SUBRESOURCES sentinel, `setSubresourceState(i, T)`
passes its assertion if and only if `i < n`; for `i >= n` the call ends in the assertion
failure, so no state is stored and no index is clamped, and with `i < n` on a record whose
sequence is empty or of length `n` the state `T` is stored in slot `i` itself. In particular a
record whose capacity is 0 accepts no specific subresource index. -/
theorem write_out_of_range (r : resource_state) (n i T : Nat)
    (hcap : r.subresourceStates.capacity = n)
    (hi : i ≠ D3D12_RESOURCE_BARRIER_ALL_SUBRESOURCES) :
    (r.setSubresourceState i T ≠ .error fault.assertion ↔ i < n) ∧
      (n ≤ i → r.setSubresourceState i T = .error fault.assertion) ∧
      (i < n → (r.subresourceStates.elems = [] ∨ r.subresourceStates.elems.length = n) →
        ∃ r1, r.setSubresourceState i T = .ok r1 ∧ r1.subresourceStates.elems[i]? = some T ∧
          r1.subresourceStates.elems.length = n) ∧
      (n = 0 → r.setSubresourceState i T = .error fault.assertion) := by
  obtain ⟨s, ⟨l, c⟩⟩ := r
  simp only [std_vector.capacity] at hcap
  subst hcap
  have hfail : c ≤ i → setSubresourceState ⟨s, ⟨l, c⟩⟩ i T = .error fault.assertion := by
    intro h
    have : ¬ i < c := by omega
    simp [setSubresourceState, hi, std_vector.capacity, this]
  have hpass : i < c → setSubresourceState ⟨s, ⟨l, c⟩⟩ i T ≠ .error fault.assertion := by
    intro h
    simp only [setSubresourceState, hi, std_vector.capacity, h, if_true, if_false]
    split <;> simp
  refine ⟨⟨fun h => ?_, hpass⟩, hfail, ?_, fun h0 => hfail (by omega)⟩
  · by_contra hlt
    exact h (hfail (by omega))
  · intro hlt hlen
    by_cases hnil : l = []
    · subst hnil
      rw [set_uniform s c i T hi hlt]
      exact ⟨_, rfl, by simp [hlt], by simp⟩
    · have hl : l.length = c := by
        rcases hlen with h | h
        · exact absurd h hnil
        · exact h
      rw [set_granular s c i T l hl hnil hi hlt]
      exact ⟨_, rfl, by simp [hl, hlt], by simp [hl]⟩

theorem write_out_of_range_witness :
    (setSubresourceState ⟨1, ⟨[], 4⟩⟩ 4 2 ≠ .error fault.assertion ↔ 4 < 4) ∧
      (4 ≤ 4 → setSubresourceState ⟨1, ⟨[], 4⟩⟩ 4 2 = .error fault.assertion) ∧
      (4 < 4 → ((resource_state.mk 1 ⟨[], 4⟩).subresourceStates.elems = [] ∨
          (resource_state.mk 1 ⟨[], 4⟩).subresourceStates.elems.length = 4) →
        ∃ r1, setSubresourceState ⟨1, ⟨[], 4⟩⟩ 4 2 = .ok r1 ∧
          r1.subresourceStates.elems[4]? = some 2 ∧ r1.subresourceStates.elems.length = 4) ∧
      (4 = 0 → setSubresourceState ⟨1, ⟨[], 4⟩⟩ 4 2 = .error fault.assertion) :=
  write_out_of_range ⟨1, ⟨[], 4⟩⟩ 4 4 2 rfl (by decide)

/-- C6, as stated, fails on a uniform record: after `initialize(4, 1)` the read
`getSubresourceState(7)`, with `7 >= 4` and 7 not the sentinel, returns the whole-resource
state 1 and evaluates no assertion. -/
theorem read_out_of_range_uniform_returns :
    (initialize_ ⟨0, ⟨[], 0⟩⟩ 4 1).subresourceStates.capacity = 4 ∧
      7 ≠ D3D12_RESOURCE_BARRIER_ALL_SUBRESOURCES ∧
      (initialize_ ⟨0, ⟨[], 0⟩⟩ 4 1).getSubresourceState 7 = .ok 1 ∧
      (initialize_ ⟨0, ⟨[], 0⟩⟩ 4 1).getSubresourceState 7 ≠ .error fault.assertion := by
  decide

/-- C6, amended (out-of-range read): on a record holding per-subresource states (non-empty
sequence, of length at most the subresource count `n`), `getSubresourceState(i)` fails its
assertion for every index `i >= n` instead of returning a state; on a uniform record the same
call returns the whole-resource state. -/
theorem read_out_of_range (r : resource_state) (n i : Nat)
    (hlen : r.subresourceStates.elems.length ≤ n) (hi : n ≤ i) :
    (r.subresourceStates.elems ≠ [] → r.getSubresourceState i = .error fault.assertion) ∧
      (r.subresourceStates.elems = [] → r.getSubresourceState i = .ok r.state) := by
  obtain ⟨s, ⟨l, c⟩⟩ := r
  simp only at hlen
  constructor
  · intro hnil
    have : ¬ i < l.length := by omega
    simp only [ne_eq] at hnil
    simp [getSubresourceState, std_vector.empty, hnil, this]
  · intro hnil
    simp only at hnil
    subst hnil
    exact get_uniform s c i

theorem read_out_of_range_witness :
    getSubresourceState ⟨1, ⟨[1, 1, 4, 1], 4⟩⟩ 4 = .error fault.assertion :=
  (read_out_of_range ⟨1, ⟨[1, 1, 4, 1], 4⟩⟩ 4 4 (by decide) (by decide)).1 (by decide)

end resource_state

/-! ## The tracker -/

namespace state_table

/-- The entries without those of `k` hold no record for `k`. -/
theorem findEntry_filter_same (es : List (Nat × resource_state)) (k : Nat) :
    findEntry (es.filter (fun e => !decide (e.1 = k))) k = none := by
  induction es with
  | nil => rfl
  | cons e es ih =>
    by_cases h : e.1 = k
    · simp [List.filter_cons, h, ih]
    · have hk : ¬ k = e.1 := fun hk => h hk.symm
      simp [List.filter_cons, h, findEntry, hk, ih]

/-- The entries without those of `k` hold the same record for every other resource. -/
theorem findEntry_filter_ne (es : List (Nat × resource_state)) (k x : Nat) (hx : x ≠ k) :
    findEntry (es.filter (fun e => !decide (e.1 = k))) x = findEntry es x := by
  induction es with
  | nil => rfl
  | cons e es ih =>
    by_cases h : e.1 = k
    · have hxe : ¬ x = e.1 := fun hxe => hx (hxe.trans h)
      simp [List.filter_cons, h, findEntry, hx, ih]
    · simp [List.filter_cons, h, findEntry, ih]

/-- The empty table has no record. -/
theorem find_empty (x : Nat) : state_table.empty x = none := rfl

/-- An erased resource has no record. -/
theorem find_erase_same (m : state_table) (k : Nat) : (m.erase k) k = none :=
  findEntry_filter_same m.entries k

/-- Erasing a resource keeps the record of every other resource. -/
theorem find_erase_ne (m : state_table) (k x : Nat) (hx : x ≠ k) : (m.erase k) x = m x :=
  findEntry_filter_ne m.entries k x hx

/-- The lookup after `insert`: the inserted record for the resource, the old lookup for every
other resource. -/
theorem find_insert (m : state_table) (k x : Nat) (r : resource_state) :
    (m.insert k r) x = if x = k then some r else m x := by
  by_cases hx : x = k
  · subst hx
    simp [insert, find, findEntry]
  · have h := find_erase_ne m k x hx
    simp only [find] at h
    simp [insert, find, findEntry, hx, h]

end state_table

/-- The first call on a resource that is not in the per-recording table. -/
theorem transition_absent (t : dx_resource_state_tracker) (R n H s : Nat)
    (habsent : t.finalResourceState R = none) :
    transitionResource t R n H s =
      .ok { t with
        pendingResourceBarriers := t.pendingResourceBarriers ++ [⟨R, s, H⟩]
        finalResourceState := t.finalResourceState.insert R ⟨H, ⟨[], n⟩⟩ } := by
  have hinit : resource_state.initialize_ ⟨D3D12_RESOURCE_STATE_COMMON, ⟨[], 0⟩⟩ n H =
      ⟨H, ⟨[], n⟩⟩ :=
    resource_state.initialize_eq _ n H rfl (Nat.zero_le n)
  simp only [transitionResource, habsent, hinit]

theorem insert_same (m : state_table) (R : Nat) (r : resource_state) :
    m.insert R r R = some r := by
  simp [state_table.find_insert]

/-- C7 (idempotence of transitions): when the per-recording table holds a record for `R` in
which subresource `s` has state `A` (the record has fewer than 2^32 per-subresource states, its
count being a `uint32`), `transitionResource(R, A, s)` returns the tracker as it was: nothing
is appended to the resolved barrier list, nothing to the pending barrier list, and the
per-recording table is unchanged. -/
theorem transition_idempotent (t : dx_resource_state_tracker) (R n A s : Nat)
    (r : resource_state) (hrec : t.finalResourceState R = some r)
    (hsize : r.subresourceStates.elems.length < 2 ^ 32)
    (hstate : r.getSubresourceState s = .ok A) :
    transitionResource t R n A s = .ok t := by
  have hbranch : ¬ (s = D3D12_RESOURCE_BARRIER_ALL_SUBRESOURCES ∧
      r.subresourceStates.empty = false) := by
    rintro ⟨hs, hne⟩
    subst hs
    have hlt : ¬ D3D12_RESOURCE_BARRIER_ALL_SUBRESOURCES < r.subresourceStates.elems.length := by
      unfold D3D12_RESOURCE_BARRIER_ALL_SUBRESOURCES
      omega
    simp [resource_state.getSubresourceState, hne, hlt] at hstate
  simp only [transitionResource, hrec, hbranch, if_false, hstate, if_true]

theorem transition_idempotent_witness :
    transitionResource ⟨[], [], state_table.insert state_table.empty 7 ⟨1, ⟨[1, 4, 1], 3⟩⟩⟩
        7 3 4 1 =
      .ok ⟨[], [], state_table.insert state_table.empty 7 ⟨1, ⟨[1, 4, 1], 3⟩⟩⟩ :=
  transition_idempotent ⟨[], [], state_table.insert state_table.empty 7 ⟨1, ⟨[1, 4, 1], 3⟩⟩⟩
    7 3 4 1 ⟨1, ⟨[1, 4, 1], 3⟩⟩ rfl (by decide) rfl

/-- A lookup that finds `v` in slot `j` of the per-subresource sequence. -/
theorem get_slot (S c j v : Nat) (l : List Nat) (hj : l[j]? = some v) :
    resource_state.getSubresourceState ⟨S, ⟨l, c⟩⟩ j = .ok v := by
  obtain ⟨hlt, hv⟩ := List.getElem?_eq_some.mp hj
  rw [resource_state.get_granular S c j l hlt]
  exact congrArg Except.ok hv

/-- One further call on a resource whose record holds `prev` for subresource `s`, requesting a
different state: one resolved barrier is appended and the record then holds the new state. -/
theorem transition_step (t : dx_resource_state_tracker) (R n s prev st : Nat)
    (r : resource_state) (hn : n < 2 ^ 32)
    (hs : s < n ∨ s = D3D12_RESOURCE_BARRIER_ALL_SUBRESOURCES)
    (hrec : t.finalResourceState R = some r) (hcap : r.subresourceStates.cap = n)
    (hgood : (r.subresourceStates.elems = [] ∧ r.state = prev) ∨
      (s ≠ D3D12_RESOURCE_BARRIER_ALL_SUBRESOURCES ∧ r.subresourceStates.elems.length = n ∧
        r.subresourceStates.elems[s]? = some prev))
    (hne : prev ≠ st) :
    ∃ r1, transitionResource t R n st s =
        .ok { t with
          resourceBarriers := t.resourceBarriers ++ [⟨R, s, prev, st⟩]
          finalResourceState := t.finalResourceState.insert R r1 } ∧
      r1.subresourceStates.cap = n ∧
      ((r1.subresourceStates.elems = [] ∧ r1.state = st) ∨
        (s ≠ D3D12_RESOURCE_BARRIER_ALL_SUBRESOURCES ∧ r1.subresourceStates.elems.length = n ∧
          r1.subresourceStates.elems[s]? = some st)) := by
  obtain ⟨s0, ⟨l, c⟩⟩ := r
  simp only at hcap hgood
  subst hcap
  rcases hgood with ⟨hnil, hprev⟩ | ⟨hsne, hlen, hslot⟩
  · subst hnil hprev
    have hbranch : ¬ (s = D3D12_RESOURCE_BARRIER_ALL_SUBRESOURCES ∧
        (resource_state.mk s0 ⟨[], c⟩).subresourceStates.empty = false) := by
      simp [std_vector.empty]
    by_cases hall : s = D3D12_RESOURCE_BARRIER_ALL_SUBRESOURCES
    · refine ⟨⟨st, ⟨[], c⟩⟩, ?_, rfl, Or.inl ⟨rfl, rfl⟩⟩
      subst hall
      simp [transitionResource, hrec, std_vector.empty, resource_state.get_uniform, hne,
        resource_state.set_all]
    · have hlt : s < c := by
        rcases hs with h | h
        · exact h
        · exact absurd h hall
      refine ⟨⟨s0, ⟨(List.replicate c s0).set s st, c⟩⟩, ?_, rfl,
        Or.inr ⟨hall, by simp, by simp [hlt]⟩⟩
      simp only [transitionResource, hrec, hbranch, if_false, resource_state.get_uniform,
        hne, resource_state.set_uniform s0 c s st hall hlt]
  · have hbranch : ¬ (s = D3D12_RESOURCE_BARRIER_ALL_SUBRESOURCES ∧
        (resource_state.mk s0 ⟨l, c⟩).subresourceStates.empty = false) := by
      simp [hsne]
    have hlt : s < c := by
      rcases hs with h | h
      · exact h
      · exact absurd h hsne
    have hnil : l ≠ [] := by
      intro h
      subst h
      simp at hslot
    refine ⟨⟨s0, ⟨l.set s st, c⟩⟩, ?_, rfl, Or.inr ⟨hsne, by simp [hlen], ?_⟩⟩
    · simp only [transitionResource, hrec, hbranch, if_false, get_slot s0 c s prev l hslot,
        hne, resource_state.set_granular s0 c s st l hlen hnil hsne hlt]
    · simp [hlen, hlt]

/-- The calls after the first one: each requested state differs from the one recorded by the
previous call, so each appends one resolved barrier and none touches the pending list. -/
theorem transitionSequence_present (R n s : Nat) (hn : n < 2 ^ 32)
    (hs : s < n ∨ s = D3D12_RESOURCE_BARRIER_ALL_SUBRESOURCES) (rest : List Nat) :
    ∀ (t : dx_resource_state_tracker) (prev : Nat) (r : resource_state),
      t.finalResourceState R = some r → r.subresourceStates.cap = n →
      ((r.subresourceStates.elems = [] ∧ r.state = prev) ∨
        (s ≠ D3D12_RESOURCE_BARRIER_ALL_SUBRESOURCES ∧ r.subresourceStates.elems.length = n ∧
          r.subresourceStates.elems[s]? = some prev)) →
      List.Chain (fun a b => a ≠ b) prev rest →
      ∃ t1, transitionSequence R n s t rest = .ok t1 ∧
        t1.resourceBarriers =
          t.resourceBarriers ++ List.zipWith (resource_barrier.mk R s) (prev :: rest) rest ∧
        t1.pendingResourceBarriers = t.pendingResourceBarriers := by
  induction rest with
  | nil =>
    intro t prev r _ _ _ _
    exact ⟨t, rfl, by simp, rfl⟩
  | cons st rest ih =>
    intro t prev r hrec hcap hgood hchain
    obtain ⟨hne, hchain1⟩ := List.chain_cons.mp hchain
    obtain ⟨r1, hstep, hcap1, hgood1⟩ := transition_step t R n s prev st r hn hs hrec hcap hgood hne
    obtain ⟨t1, hseq, hres, hpend⟩ :=
      ih { t with
          resourceBarriers := t.resourceBarriers ++ [⟨R, s, prev, st⟩]
          finalResourceState := t.finalResourceState.insert R r1 }
        st r1 (insert_same t.finalResourceState R r1) hcap1 hgood1 hchain1
    refine ⟨t1, ?_, ?_, ?_⟩
    · simp only [transitionSequence, hstep]
      exact hseq
    · rw [hres]
      simp
    · rw [hpend]

/-- C8 (minimality): a sequence of N >= 1 `transitionResource` calls on one resource `R` and one
subresource `s` (an index below the subresource count, or the sentinel) in a recording that has
not touched `R` yet, each requested state differing from the previous one, returns and appends
exactly N-1 barriers to the resolved list, the k-th with before = the (k-1)-th requested state
and after = the k-th, and exactly one barrier, for the first request, to the pending list. -/
theorem transition_minimality (t0 : dx_resource_state_tracker) (R n s first : Nat)
    (rest : List Nat) (hn : n < 2 ^ 32)
    (hs : s < n ∨ s = D3D12_RESOURCE_BARRIER_ALL_SUBRESOURCES)
    (hfresh : t0.finalResourceState R = none)
    (hdiff : List.Chain (fun a b => a ≠ b) first rest) :
    ∃ t, transitionSequence R n s t0 (first :: rest) = .ok t ∧
      t.resourceBarriers =
        t0.resourceBarriers ++ List.zipWith (resource_barrier.mk R s) (first :: rest) rest ∧
      (List.zipWith (resource_barrier.mk R s) (first :: rest) rest).length =
        (first :: rest).length - 1 ∧
      t.pendingResourceBarriers = t0.pendingResourceBarriers ++ [⟨R, s, first⟩] := by
  obtain ⟨t, hseq, hres, hpend⟩ :=
    transitionSequence_present R n s hn hs rest
      { t0 with
        pendingResourceBarriers := t0.pendingResourceBarriers ++ [⟨R, s, first⟩]
        finalResourceState := t0.finalResourceState.insert R ⟨first, ⟨[], n⟩⟩ }
      first ⟨first, ⟨[], n⟩⟩ (insert_same _ R _) rfl (Or.inl ⟨rfl, rfl⟩) hdiff
  refine ⟨t, ?_, hres, by simp, hpend⟩
  simp only [transitionSequence, transition_absent t0 R n first s hfresh]
  exact hseq

theorem transition_minimality_witness :
    ∃ t, transitionSequence 7 3 1 fresh [4, 1, 4, 8] = .ok t ∧
      t.resourceBarriers = fresh.resourceBarriers ++ [⟨7, 1, 4, 1⟩, ⟨7, 1, 1, 4⟩, ⟨7, 1, 4, 8⟩] ∧
      ([⟨7, 1, 4, 1⟩, ⟨7, 1, 1, 4⟩, ⟨7, 1, 4, 8⟩] : List resource_barrier).length = 4 - 1 ∧
      t.pendingResourceBarriers = fresh.pendingResourceBarriers ++ [⟨7, 1, 4⟩] :=
  transition_minimality fresh 7 3 1 4 [1, 4, 8] (by norm_num) (by decide) rfl (by simp)

/-- Resolving a pending list extended by one barrier that resolves to `b`. -/
theorem resolvePendingList_append (global : state_table) (p : pending_barrier)
    (b : resource_barrier) (hp : resolvePending global p = .ok b) (ps : List pending_barrier) :
    ∀ bs, resolvePendingList global ps = .ok bs →
      resolvePendingList global (ps ++ [p]) = .ok (bs ++ [b]) := by
  induction ps with
  | nil =>
    intro bs h
    simp only [resolvePendingList, Except.ok.injEq] at h
    subst h
    simp [resolvePendingList, hp]
  | cons q ps ih =>
    intro bs h
    simp only [resolvePendingList] at h
    cases hq : resolvePending global q with
    | error e => simp [hq] at h
    | ok c =>
      cases hrest : resolvePendingList global ps with
      | error e => simp [hq, hrest] at h
      | ok cs =>
        simp only [hq, hrest, Except.ok.injEq] at h
        subst h
        simp [resolvePendingList, hq, ih cs hrest]

/-- A resolved barrier is for the resource of the pending barrier it comes from. -/
theorem resolvePending_resource (global : state_table) (p : pending_barrier)
    (b : resource_barrier) (hp : resolvePending global p = .ok b) :
    b.pResource = p.pResource := by
  unfold resolvePending at hp
  split at hp
  · simp at hp
  · split at hp
    · simp only [Except.ok.injEq] at hp
      subst hp
      rfl
    · simp at hp

/-- Pending barriers none of which is for `R` resolve to barriers none of which is for `R`. -/
theorem resolvePendingList_other (global : state_table) (R : Nat) (ps : List pending_barrier) :
    ∀ bs, resolvePendingList global ps = .ok bs → (∀ p ∈ ps, p.pResource ≠ R) →
      bs.filter (fun b => decide (b.pResource = R)) = [] := by
  induction ps with
  | nil =>
    intro bs h _
    simp only [resolvePendingList, Except.ok.injEq] at h
    subst h
    rfl
  | cons q ps ih =>
    intro bs h hne
    simp only [resolvePendingList] at h
    cases hq : resolvePending global q with
    | error e => simp [hq] at h
    | ok c =>
      cases hrest : resolvePendingList global ps with
      | error e => simp [hq, hrest] at h
      | ok cs =>
        simp only [hq, hrest, Except.ok.injEq] at h
        subst h
        have hc : c.pResource ≠ R := by
          rw [resolvePending_resource global q c hq]
          exact hne q (List.mem_cons_self q ps)
        have hcs := ih cs hrest (fun p hp => hne p (List.mem_cons_of_mem q hp))
        simp [List.filter_cons, hc, hcs]

/-- C9 (pending resolution correctness): when the global table holds the uniform record with
state `G` for `R` and a recording that has not touched `R` (no record and no pending barrier for
it; its other pending barriers resolve to `bs`) calls `transitionResource(R, H)` and then
`flushPendingResourceBarriers`, both calls return and the flush emits, after `bs`, exactly one
barrier for `R`, with before = `G` and after = `H`. -/
theorem pending_resolution (t : dx_resource_state_tracker) (global : state_table)
    (commandList bs : List resource_barrier) (R n G H : Nat) (g : resource_state)
    (hfresh : t.finalResourceState R = none)
    (hpend : ∀ p ∈ t.pendingResourceBarriers, p.pResource ≠ R)
    (hothers : resolvePendingList global t.pendingResourceBarriers = .ok bs)
    (hreg : global R = some g) (huniform : g.subresourceStates.elems = [])
    (hG : g.state = G) :
    ∃ t1, transitionResource t R n H = .ok t1 ∧
      flushPendingResourceBarriers t1 global commandList =
        .ok (bs.length + 1, { t1 with pendingResourceBarriers := [] },
          commandList ++ (bs ++ [⟨R, D3D12_RESOURCE_BARRIER_ALL_SUBRESOURCES, G, H⟩])) ∧
      List.filter (fun b : resource_barrier => decide (b.pResource = R))
          (bs ++ [⟨R, D3D12_RESOURCE_BARRIER_ALL_SUBRESOURCES, G, H⟩]) =
        [⟨R, D3D12_RESOURCE_BARRIER_ALL_SUBRESOURCES, G, H⟩] := by
  obtain ⟨gs, ⟨gl, gc⟩⟩ := g
  simp only at huniform hG
  subst huniform hG
  have hp : resolvePending global ⟨R, D3D12_RESOURCE_BARRIER_ALL_SUBRESOURCES, H⟩ =
      .ok ⟨R, D3D12_RESOURCE_BARRIER_ALL_SUBRESOURCES, gs, H⟩ := by
    simp only [resolvePending, hreg, resource_state.get_uniform]
  refine ⟨_, transition_absent t R n H _ hfresh, ?_, ?_⟩
  · simp only [flushPendingResourceBarriers,
      resolvePendingList_append global _ _ hp _ bs hothers]
    simp
  · rw [List.filter_append, resolvePendingList_other global R _ bs hothers hpend]
    simp

theorem pending_resolution_witness :
    ∃ t1, transitionResource fresh 7 1 4 = .ok t1 ∧
      flushPendingResourceBarriers t1 (state_table.insert state_table.empty 7 ⟨0, ⟨[], 1⟩⟩) [] =
        .ok (([] : List resource_barrier).length + 1, { t1 with pendingResourceBarriers := [] },
          [] ++ ([] ++ [⟨7, D3D12_RESOURCE_BARRIER_ALL_SUBRESOURCES, 0, 4⟩])) ∧
      List.filter (fun b : resource_barrier => decide (b.pResource = 7))
          ([] ++ [⟨7, D3D12_RESOURCE_BARRIER_ALL_SUBRESOURCES, 0, 4⟩]) =
        [⟨7, D3D12_RESOURCE_BARRIER_ALL_SUBRESOURCES, 0, 4⟩] :=
  pending_resolution fresh (state_table.insert state_table.empty 7 ⟨0, ⟨[], 1⟩⟩) [] [] 7 1 0 4
    ⟨0, ⟨[], 1⟩⟩ rfl (by simp [fresh]) rfl rfl rfl rfl

/-- An entry's resource has a record among the entries. -/
theorem findEntry_mem (es : List (Nat × resource_state)) (e : Nat × resource_state)
    (h : e ∈ es) : state_table.findEntry es e.1 ≠ none := by
  induction es with
  | nil => simp at h
  | cons d es ih =>
    unfold state_table.findEntry
    split
    · simp
    · rename_i hne
      rcases List.mem_cons.mp h with hd | hd
      · exact absurd (congrArg Prod.fst hd) hne
      · exact ih hd

/-- A resource that has a record among the entries has an entry. -/
theorem findEntry_some_mem (es : List (Nat × resource_state)) (k : Nat) (r : resource_state)
    (h : state_table.findEntry es k = some r) : (k, r) ∈ es := by
  induction es with
  | nil => simp [state_table.findEntry] at h
  | cons d es ih =>
    unfold state_table.findEntry at h
    split at h
    · rename_i hk
      simp only [Option.some.injEq] at h
      subst hk h
      exact List.mem_cons_self _ _
    · exact List.mem_cons_of_mem _ (ih h)

/-- The check made by `commitFinalResourceStates` passes exactly when every resource of the
per-recording table is registered in the global table. -/
theorem registered_iff (t : dx_resource_state_tracker) (global : state_table) :
    t.finalResourceState.entries.all (fun e => (global e.1).isSome) = true ↔
      ∀ k, t.finalResourceState k ≠ none → global k ≠ none := by
  rw [List.all_eq_true]
  constructor
  · intro h k hk
    cases hr : t.finalResourceState k with
    | none => exact absurd hr hk
    | some r =>
      have hmem := findEntry_some_mem t.finalResourceState.entries k r hr
      have hsome := h (k, r) hmem
      intro hnone
      simp [hnone] at hsome
  · intro h e he
    have hne := h e.1 (findEntry_mem t.finalResourceState.entries e he)
    cases hg : global e.1 with
    | none => exact absurd hg hne
    | some g => rfl

/-- The lookup among the entries overwritten by a commit. -/
theorem findEntry_overwrite (f : state_table) (es : List (Nat × resource_state)) (x : Nat) :
    state_table.findEntry (es.map (overwriteEntry f)) x =
      match state_table.findEntry es x with
      | none => none
      | some v => some ((f x).getD v) := by
  induction es with
  | nil => rfl
  | cons e es ih =>
    have hfst : (overwriteEntry f e).1 = e.1 := by
      unfold overwriteEntry
      split <;> rfl
    simp only [List.map_cons, state_table.findEntry, hfst]
    by_cases hx : x = e.1
    · subst hx
      simp only [if_true]
      unfold overwriteEntry
      cases f e.1 <;> rfl
    · simp only [hx, if_false]
      exact ih

/-- A commit with every touched resource registered returns the global table with the touched
records overwritten. -/
theorem commit_registered (t : dx_resource_state_tracker) (global : state_table)
    (hreg : ∀ k, t.finalResourceState k ≠ none → global k ≠ none) :
    commitFinalResourceStates t global =
      .ok (overwriteEntries t.finalResourceState global) := by
  simp only [commitFinalResourceStates, (registered_iff t global).mpr hreg, if_true]

/-- A commit with a touched resource that is not registered fails its assertion. -/
theorem commit_unregistered (t : dx_resource_state_tracker) (global : state_table)
    (hreg : ¬ ∀ k, t.finalResourceState k ≠ none → global k ≠ none) :
    commitFinalResourceStates t global = .error fault.assertion := by
  have hcheck : ¬ t.finalResourceState.entries.all (fun e => (global e.1).isSome) = true :=
    fun h => hreg ((registered_iff t global).mp h)
  rw [commitFinalResourceStates, if_neg hcheck]

/-- The lookup in a table whose entries were overwritten by a commit. -/
theorem find_overwriteEntries (f g : state_table) (x : Nat) :
    (overwriteEntries f g) x =
      match g x with
      | none => none
      | some v => some ((f x).getD v) :=
  findEntry_overwrite f g.entries x

/-- The lookup in the table a commit returns. -/
theorem commit_find (t : dx_resource_state_tracker) (global g1 : state_table)
    (h : commitFinalResourceStates t global = .ok g1) (x : Nat) :
    g1 x =
      match global x with
      | none => none
      | some v => some ((t.finalResourceState x).getD v) := by
  unfold commitFinalResourceStates at h
  split at h
  · simp only [Except.ok.injEq] at h
    subst h
    exact findEntry_overwrite t.finalResourceState global.entries x
  · simp at h

/-- C10, as stated, fails on a global table in which a touched resource is not registered:
with the per-recording record of resource 7 and the empty global table,
`commitFinalResourceStates` ends in the assertion failure and yields no global table. -/
theorem commit_unregistered_fails :
    commitFinalResourceStates
        ⟨[], [], state_table.insert state_table.empty 7 ⟨1, ⟨[1, 4, 1], 3⟩⟩⟩
        state_table.empty = .error fault.assertion := by
  decide

/-- C10, amended (commit round-trip): for every tracker and every global table in which every
resource of the per-recording table is registered, `commitFinalResourceStates` returns, and the
global table it returns holds, for each resource present in the per-recording table, the
per-recording record, whatever it held before: its per-subresource sequence is the
per-recording one and `getSubresourceState(j)` yields on it what it yields on the per-recording
record, for every index `j`. -/
theorem commit_round_trip (t : dx_resource_state_tracker) (global : state_table) (R : Nat)
    (r : resource_state)
    (hreg : ∀ k, t.finalResourceState k ≠ none → global k ≠ none)
    (hrec : t.finalResourceState R = some r) :
    ∃ g1, commitFinalResourceStates t global = .ok g1 ∧
      ∃ g, g1 R = some g ∧
        g.state = r.state ∧ g.subresourceStates.elems = r.subresourceStates.elems ∧
        ∀ j, g.getSubresourceState j = r.getSubresourceState j := by
  have hok := commit_registered t global hreg
  refine ⟨_, hok, r, ?_, rfl, rfl, fun _ => rfl⟩
  rw [commit_find t global _ hok R]
  have hg : global R ≠ none := hreg R (by rw [hrec]; simp)
  cases hgr : global R with
  | none => exact absurd hgr hg
  | some v => simp [hrec]

theorem commit_round_trip_witness :
    ∃ g1, commitFinalResourceStates
        ⟨[], [], state_table.insert state_table.empty 7 ⟨1, ⟨[1, 4, 1], 3⟩⟩⟩
        (state_table.insert state_table.empty 7 ⟨0, ⟨[], 3⟩⟩) = .ok g1 ∧
      ∃ g, g1 7 = some g ∧
        g.state = (resource_state.mk 1 ⟨[1, 4, 1], 3⟩).state ∧
        g.subresourceStates.elems = (resource_state.mk 1 ⟨[1, 4, 1], 3⟩).subresourceStates.elems ∧
        ∀ j, g.getSubresourceState j = resource_state.getSubresourceState ⟨1, ⟨[1, 4, 1], 3⟩⟩ j :=
  commit_round_trip ⟨[], [], state_table.insert state_table.empty 7 ⟨1, ⟨[1, 4, 1], 3⟩⟩⟩
    (state_table.insert state_table.empty 7 ⟨0, ⟨[], 3⟩⟩) 7 ⟨1, ⟨[1, 4, 1], 3⟩⟩
    (by
      intro k hk
      by_cases h7 : k = 7
      · subst h7
        decide
      · simp [state_table.find_insert, state_table.find_empty, h7] at hk)
    rfl

/-- The record `addGlobalResourceState` inserts for an identity that is not registered. -/
theorem addGlobal_absent (global : state_table) (R state n : Nat) (habsent : global R = none) :
    addGlobalResourceState global R state n = .ok (global.insert R ⟨state, ⟨[], n⟩⟩) := by
  have hinit : resource_state.initialize_ ⟨D3D12_RESOURCE_STATE_COMMON, ⟨[], 0⟩⟩ n state =
      ⟨state, ⟨[], n⟩⟩ :=
    resource_state.initialize_eq _ n state rfl (Nat.zero_le n)
  simp only [addGlobalResourceState, habsent, hinit]

/-- An all-subresources transition on a uniform record that holds another state. -/
theorem transition_uniform_all (t : dx_resource_state_tracker) (R n S c U : Nat)
    (hrec : t.finalResourceState R = some ⟨S, ⟨[], c⟩⟩) (hne : S ≠ U) :
    transitionResource t R n U =
      .ok { t with
        resourceBarriers :=
          t.resourceBarriers ++ [⟨R, D3D12_RESOURCE_BARRIER_ALL_SUBRESOURCES, S, U⟩]
        finalResourceState := t.finalResourceState.insert R ⟨U, ⟨[], c⟩⟩ } := by
  simp [transitionResource, hrec, std_vector.empty, resource_state.get_uniform, hne,
    resource_state.set_all]

/-- C11 (end-to-end ordering): for a resource `X` registered with one subresource and global
state COMMON, a fresh recording that calls `transitionResource(X, RENDER_TARGET)` and then
`transitionResource(X, PIXEL_SHADER_RESOURCE)` and is then flushed (pending first, then
resolved) emits exactly two barriers, in this order: COMMON to RENDER_TARGET, then RENDER_TARGET
to PIXEL_SHADER_RESOURCE; `commitFinalResourceStates` afterwards leaves the global record of `X`
uniform with state PIXEL_SHADER_RESOURCE. Every call returns. -/
theorem end_to_end_ordering (global : state_table) (X : Nat) (hnew : global X = none) :
    ∃ g1 t1 t2 t3,
      addGlobalResourceState global X D3D12_RESOURCE_STATE_COMMON 1 = .ok g1 ∧
      transitionResource fresh X 1 D3D12_RESOURCE_STATE_RENDER_TARGET = .ok t1 ∧
      transitionResource t1 X 1 D3D12_RESOURCE_STATE_PIXEL_SHADER_RESOURCE = .ok t2 ∧
      flushResourceBarriers t2 g1 [] =
        .ok (t3,
          [⟨X, D3D12_RESOURCE_BARRIER_ALL_SUBRESOURCES, D3D12_RESOURCE_STATE_COMMON,
              D3D12_RESOURCE_STATE_RENDER_TARGET⟩,
            ⟨X, D3D12_RESOURCE_BARRIER_ALL_SUBRESOURCES, D3D12_RESOURCE_STATE_RENDER_TARGET,
              D3D12_RESOURCE_STATE_PIXEL_SHADER_RESOURCE⟩]) ∧
      ∃ g2, commitFinalResourceStates t3 g1 = .ok g2 ∧
        ∃ g, g2 X = some g ∧
          g.state = D3D12_RESOURCE_STATE_PIXEL_SHADER_RESOURCE ∧
          g.subresourceStates.elems = [] ∧
          ∀ j, g.getSubresourceState j = .ok D3D12_RESOURCE_STATE_PIXEL_SHADER_RESOURCE := by
  have hne : D3D12_RESOURCE_STATE_RENDER_TARGET ≠ D3D12_RESOURCE_STATE_PIXEL_SHADER_RESOURCE := by
    decide
  refine ⟨_, _, _,
    { resourceBarriers := [], pendingResourceBarriers := [],
      finalResourceState := (fresh.finalResourceState.insert X
        ⟨D3D12_RESOURCE_STATE_RENDER_TARGET, ⟨[], 1⟩⟩).insert X
        ⟨D3D12_RESOURCE_STATE_PIXEL_SHADER_RESOURCE, ⟨[], 1⟩⟩ },
    addGlobal_absent global X _ 1 hnew,
    transition_absent fresh X 1 _ _ rfl,
    transition_uniform_all _ X 1 D3D12_RESOURCE_STATE_RENDER_TARGET 1 _
      (insert_same _ X _) hne, ?_, ?_⟩
  · simp [flushResourceBarriers, flushPendingResourceBarriers, resolvePendingList,
      resolvePending, state_table.find_insert, resource_state.get_uniform, fresh]
  · have hreg : ∀ k,
        ((fresh.finalResourceState.insert X ⟨D3D12_RESOURCE_STATE_RENDER_TARGET, ⟨[], 1⟩⟩).insert X
          ⟨D3D12_RESOURCE_STATE_PIXEL_SHADER_RESOURCE, ⟨[], 1⟩⟩) k ≠ none →
        (global.insert X ⟨D3D12_RESOURCE_STATE_COMMON, ⟨[], 1⟩⟩) k ≠ none := by
      intro k hk
      by_cases hkX : k = X
      · simp [state_table.find_insert, hkX]
      · exfalso
        apply hk
        simp [state_table.find_insert, hkX, fresh, state_table.find_empty]
    have hok := commit_registered
      { resourceBarriers := [], pendingResourceBarriers := [],
        finalResourceState := (fresh.finalResourceState.insert X
          ⟨D3D12_RESOURCE_STATE_RENDER_TARGET, ⟨[], 1⟩⟩).insert X
          ⟨D3D12_RESOURCE_STATE_PIXEL_SHADER_RESOURCE, ⟨[], 1⟩⟩ }
      (global.insert X ⟨D3D12_RESOURCE_STATE_COMMON, ⟨[], 1⟩⟩) hreg
    refine ⟨_, hok, ⟨D3D12_RESOURCE_STATE_PIXEL_SHADER_RESOURCE, ⟨[], 1⟩⟩, ?_, rfl, rfl,
      fun j => resource_state.get_uniform _ _ j⟩
    rw [commit_find _ _ _ hok X]
    simp [state_table.find_insert]

theorem end_to_end_ordering_witness :
    ∃ g1 t1 t2 t3,
      addGlobalResourceState state_table.empty 7 D3D12_RESOURCE_STATE_COMMON 1 = .ok g1 ∧
      transitionResource fresh 7 1 D3D12_RESOURCE_STATE_RENDER_TARGET = .ok t1 ∧
      transitionResource t1 7 1 D3D12_RESOURCE_STATE_PIXEL_SHADER_RESOURCE = .ok t2 ∧
      flushResourceBarriers t2 g1 [] =
        .ok (t3,
          [⟨7, D3D12_RESOURCE_BARRIER_ALL_SUBRESOURCES, D3D12_RESOURCE_STATE_COMMON,
              D3D12_RESOURCE_STATE_RENDER_TARGET⟩,
            ⟨7, D3D12_RESOURCE_BARRIER_ALL_SUBRESOURCES, D3D12_RESOURCE_STATE_RENDER_TARGET,
              D3D12_RESOURCE_STATE_PIXEL_SHADER_RESOURCE⟩]) ∧
      ∃ g2, commitFinalResourceStates t3 g1 = .ok g2 ∧
        ∃ g, g2 7 = some g ∧
          g.state = D3D12_RESOURCE_STATE_PIXEL_SHADER_RESOURCE ∧
          g.subresourceStates.elems = [] ∧
          ∀ j, g.getSubresourceState j = .ok D3D12_RESOURCE_STATE_PIXEL_SHADER_RESOURCE :=
  end_to_end_ordering state_table.empty 7 rfl

/-- Resolving a pending list yields one barrier per pending barrier. -/
theorem resolvePendingList_length (global : state_table) (ps : List pending_barrier) :
    ∀ bs, resolvePendingList global ps = .ok bs → bs.length = ps.length := by
  induction ps with
  | nil =>
    intro bs h
    simp only [resolvePendingList, Except.ok.injEq] at h
    subst h
    rfl
  | cons q ps ih =>
    intro bs h
    simp only [resolvePendingList] at h
    cases hq : resolvePending global q with
    | error e => simp [hq] at h
    | ok c =>
      cases hrest : resolvePendingList global ps with
      | error e => simp [hq, hrest] at h
      | ok cs =>
        simp only [hq, hrest, Except.ok.injEq] at h
        subst h
        simp [ih cs hrest]

/-- Pending barriers whose resources are registered with a record on which the lookup of the
subresource returns all resolve. -/
theorem resolvePendingList_returns (global : state_table) (ps : List pending_barrier) :
    (∀ p ∈ ps, ∃ g G, global p.pResource = some g ∧
      g.getSubresourceState p.Subresource = .ok G) →
    ∃ bs, resolvePendingList global ps = .ok bs := by
  induction ps with
  | nil =>
    intro _
    exact ⟨[], rfl⟩
  | cons q ps ih =>
    intro h
    obtain ⟨g, G, hg, hG⟩ := h q (List.mem_cons_self q ps)
    obtain ⟨bs, hbs⟩ := ih (fun p hp => h p (List.mem_cons_of_mem q hp))
    refine ⟨⟨q.pResource, q.Subresource, G, q.StateAfter⟩ :: bs, ?_⟩
    simp [resolvePendingList, resolvePending, hg, hG, hbs]

/-- C12 (flush count): whenever `flushPendingResourceBarriers` returns, it returns exactly the
number of barriers it appended to the command list and leaves the pending barrier list empty;
it does return, with one barrier per pending barrier, when every pending barrier is for a
registered resource on whose record the lookup of its subresource returns; in particular, with
an empty pending list it returns 0, emits nothing, changes nothing and signals no error. -/
theorem flush_pending_count (t : dx_resource_state_tracker) (global : state_table)
    (commandList : List resource_barrier) :
    (∀ k t1 commandList1,
        flushPendingResourceBarriers t global commandList = .ok (k, t1, commandList1) →
        ∃ bs, commandList1 = commandList ++ bs ∧ k = bs.length ∧
          t1.pendingResourceBarriers = []) ∧
      ((∀ p ∈ t.pendingResourceBarriers, ∃ g G, global p.pResource = some g ∧
          g.getSubresourceState p.Subresource = .ok G) →
        ∃ bs, flushPendingResourceBarriers t global commandList =
            .ok (bs.length, { t with pendingResourceBarriers := [] }, commandList ++ bs) ∧
          bs.length = t.pendingResourceBarriers.length) ∧
      (t.pendingResourceBarriers = [] →
        flushPendingResourceBarriers t global commandList = .ok (0, t, commandList)) := by
  refine ⟨?_, ?_, ?_⟩
  · intro k t1 commandList1 h
    unfold flushPendingResourceBarriers at h
    cases hbs : resolvePendingList global t.pendingResourceBarriers with
    | error e => simp [hbs] at h
    | ok bs =>
      simp only [hbs, Except.ok.injEq, Prod.mk.injEq] at h
      obtain ⟨hk, ht, hcl⟩ := h
      exact ⟨bs, hcl.symm, hk.symm, by rw [← ht]⟩
  · intro h
    obtain ⟨bs, hbs⟩ := resolvePendingList_returns global _ h
    exact ⟨bs, by simp only [flushPendingResourceBarriers, hbs],
      resolvePendingList_length global _ bs hbs⟩
  · intro h
    obtain ⟨rb, pb, ft⟩ := t
    simp only at h
    subst h
    simp [flushPendingResourceBarriers, resolvePendingList]

theorem flush_pending_count_witness :
    ∃ bs, flushPendingResourceBarriers
          ⟨[], [⟨7, 4294967295, 4⟩, ⟨9, 1, 8⟩],
            (state_table.insert state_table.empty 7 ⟨4, ⟨[], 1⟩⟩).insert 9 ⟨8, ⟨[], 2⟩⟩⟩
          ((state_table.insert state_table.empty 7 ⟨0, ⟨[], 1⟩⟩).insert 9 ⟨0, ⟨[1, 2], 2⟩⟩)
          [] =
        .ok (bs.length,
          ⟨[], [], (state_table.insert state_table.empty 7 ⟨4, ⟨[], 1⟩⟩).insert 9 ⟨8, ⟨[], 2⟩⟩⟩,
          [] ++ bs) ∧
      bs.length = 2 :=
  (flush_pending_count
    ⟨[], [⟨7, 4294967295, 4⟩, ⟨9, 1, 8⟩],
      (state_table.insert state_table.empty 7 ⟨4, ⟨[], 1⟩⟩).insert 9 ⟨8, ⟨[], 2⟩⟩⟩
    ((state_table.insert state_table.empty 7 ⟨0, ⟨[], 1⟩⟩).insert 9 ⟨0, ⟨[1, 2], 2⟩⟩)
    []).2.1 (by
      intro p hp
      simp only [List.mem_cons, List.mem_singleton, List.not_mem_nil, or_false] at hp
      rcases hp with h | h
      · subst h
        exact ⟨⟨0, ⟨[], 1⟩⟩, 0, rfl, rfl⟩
      · subst h
        exact ⟨⟨0, ⟨[1, 2], 2⟩⟩, 2, rfl, rfl⟩)

/-- Every subresource whose recorded state is not `U` gets its transition to `U`. -/
theorem subresourceTransitions_mem (R U : Nat) (l : List Nat) :
    ∀ start k s, l[k]? = some s → s ≠ U →
      (⟨R, start + k, s, U⟩ : resource_barrier) ∈ subresourceTransitions R U start l := by
  induction l with
  | nil =>
    intro start k s h
    simp at h
  | cons a l ih =>
    intro start k s h hne
    cases k with
    | zero =>
      simp only [List.getElem?_cons_zero, Option.some.injEq] at h
      subst h
      simp [subresourceTransitions, hne]
    | succ k =>
      simp only [List.getElem?_cons_succ] at h
      have hmem := ih (start + 1) k s h hne
      have hidx : start + 1 + k = start + (k + 1) := by omega
      rw [hidx] at hmem
      unfold subresourceTransitions
      split
      · exact hmem
      · exact List.mem_cons_of_mem _ hmem

/-- C13 (all-subresources transition over granular state): when the per-recording record of
`R` holds per-subresource states, `transitionResource(R, U, ALL_SUBRESOURCES)` returns (no
assertion failure), leaves the record of `R` uniform with state `U` and no per-subresource data,
does not touch the pending list, and appends resolved barriers among which every subresource
whose recorded state differed from `U` has its transition from that state to `U`. -/
theorem transition_all_over_granular (t : dx_resource_state_tracker) (R n U : Nat)
    (r : resource_state) (hrec : t.finalResourceState R = some r)
    (hgranular : r.subresourceStates.elems ≠ []) :
    ∃ t1, transitionResource t R n U = .ok t1 ∧
      t1.finalResourceState R = some ⟨U, ⟨[], r.subresourceStates.cap⟩⟩ ∧
      t1.pendingResourceBarriers = t.pendingResourceBarriers ∧
      ∃ bs, t1.resourceBarriers = t.resourceBarriers ++ bs ∧
        ∀ k s, r.subresourceStates.elems[k]? = some s → s ≠ U →
          (⟨R, k, s, U⟩ : resource_barrier) ∈ bs := by
  obtain ⟨s0, ⟨l, c⟩⟩ := r
  simp only [ne_eq] at hgranular
  refine ⟨{ t with
      resourceBarriers := t.resourceBarriers ++ subresourceTransitions R U 0 l
      finalResourceState := t.finalResourceState.insert R ⟨U, ⟨[], c⟩⟩ }, ?_,
    insert_same _ R _, rfl, _, rfl, ?_⟩
  · simp [transitionResource, hrec, std_vector.empty, hgranular, resource_state.set_all]
  · intro k s hk hne
    have h := subresourceTransitions_mem R U l 0 k s hk hne
    rwa [Nat.zero_add] at h

theorem transition_all_over_granular_witness :
    ∃ t1, transitionResource
          ⟨[], [], state_table.insert state_table.empty 7 ⟨1, ⟨[1, 4, 8], 3⟩⟩⟩ 7 3 4 = .ok t1 ∧
      t1.finalResourceState 7 =
        some ⟨4, ⟨[], (resource_state.mk 1 ⟨[1, 4, 8], 3⟩).subresourceStates.cap⟩⟩ ∧
      t1.pendingResourceBarriers = [] ∧
      ∃ bs, t1.resourceBarriers = [] ++ bs ∧
        ∀ k s, (resource_state.mk 1 ⟨[1, 4, 8], 3⟩).subresourceStates.elems[k]? = some s →
          s ≠ 4 → (⟨7, k, s, 4⟩ : resource_barrier) ∈ bs :=
  transition_all_over_granular
    ⟨[], [], state_table.insert state_table.empty 7 ⟨1, ⟨[1, 4, 8], 3⟩⟩⟩ 7 3 4
    ⟨1, ⟨[1, 4, 8], 3⟩⟩ rfl (by decide)

/-- C14 (reset): for every tracker state, after `reset()` the per-recording table, the resolved
barrier list and the pending barrier list are all empty, which is the state `initialize()`
produces (the one of a fresh recording); `reset()` writes no global table, and a commit made
right after it leaves every global table as it is. -/
theorem reset_empties (t : dx_resource_state_tracker) :
    (∀ R, (reset t).finalResourceState R = none) ∧
      (reset t).resourceBarriers = [] ∧
      (reset t).pendingResourceBarriers = [] ∧
      reset t = t.initialize_ ∧
      reset t = fresh ∧
      ∀ global, commitFinalResourceStates (reset t) global = .ok global := by
  refine ⟨fun _ => rfl, rfl, rfl, rfl, rfl, fun global => ?_⟩
  have hself : ∀ e : Nat × resource_state, overwriteEntry state_table.empty e = e :=
    fun _ => rfl
  have hmap : global.entries.map (overwriteEntry state_table.empty) = global.entries := by
    rw [List.map_congr_left (fun e _ => hself e), List.map_id']
  show Except.ok (overwriteEntries state_table.empty global) = Except.ok global
  unfold overwriteEntries
  rw [hmap]

/-- C15 (double registration): on a global table that already holds an entry for `R`,
`addGlobalResourceState(R, state, n)` fails its assertion and yields no new table, so the
existing record is never replaced; for an identity that is not present it returns the table
with a fresh uniform record for `R` (the given state, no per-subresource states, capacity `n`)
and every other entry as it was. -/
theorem double_registration (global : state_table) (R state n : Nat) :
    (∀ g, global R = some g →
        addGlobalResourceState global R state n = .error fault.assertion) ∧
      (global R = none →
        ∃ g1, addGlobalResourceState global R state n = .ok g1 ∧
          g1 R = some ⟨state, ⟨[], n⟩⟩ ∧ ∀ k, k ≠ R → g1 k = global k) := by
  constructor
  · intro g hg
    simp only [addGlobalResourceState, hg]
  · intro hnone
    refine ⟨_, addGlobal_absent global R state n hnone, insert_same _ R _, ?_⟩
    intro k hk
    simp [state_table.find_insert, hk]

/-- The only way `getSubresourceState` fails is its assertion. -/
theorem get_error (r : resource_state) (j : Nat) (e : fault)
    (h : r.getSubresourceState j = .error e) : e = fault.assertion := by
  unfold resource_state.getSubresourceState at h
  split at h
  · split at h
    · simp at h
    · simp only [Except.error.injEq] at h
      exact h.symm
  · simp at h

/-- The only way the resolution of a pending barrier fails is an assertion. -/
theorem resolvePending_error (global : state_table) (p : pending_barrier) (e : fault)
    (h : resolvePending global p = .error e) : e = fault.assertion := by
  unfold resolvePending at h
  split at h
  · simp only [Except.error.injEq] at h
    exact h.symm
  · rename_i g _
    cases hg : g.getSubresourceState p.Subresource with
    | ok v => simp [hg] at h
    | error e1 =>
      simp only [hg, Except.error.injEq] at h
      subst h
      exact get_error g _ _ hg

/-- The only way the resolution of a pending list fails is an assertion. -/
theorem resolvePendingList_error (global : state_table) (ps : List pending_barrier) :
    ∀ e, resolvePendingList global ps = .error e → e = fault.assertion := by
  induction ps with
  | nil =>
    intro e h
    simp [resolvePendingList] at h
  | cons q ps ih =>
    intro e h
    simp only [resolvePendingList] at h
    cases hq : resolvePending global q with
    | error e1 =>
      simp only [hq, Except.error.injEq] at h
      subst h
      exact resolvePending_error global q _ hq
    | ok c =>
      cases hrest : resolvePendingList global ps with
      | error e1 =>
        simp only [hq, hrest, Except.error.injEq] at h
        subst h
        exact ih _ hrest
      | ok cs => simp [hq, hrest] at h

/-- A pending list with a barrier for an unregistered resource does not resolve. -/
theorem resolvePendingList_unregistered (global : state_table) (ps : List pending_barrier) :
    ∀ p, p ∈ ps → global p.pResource = none →
      resolvePendingList global ps = .error fault.assertion := by
  induction ps with
  | nil =>
    intro p hp
    simp at hp
  | cons q ps ih =>
    intro p hp hnone
    cases hq : resolvePending global q with
    | error e =>
      have he := resolvePending_error global q e hq
      subst he
      simp [resolvePendingList, hq]
    | ok c =>
      rcases List.mem_cons.mp hp with h | h
      · subst h
        simp [resolvePending, hnone] at hq
      · simp [resolvePendingList, hq, ih p h hnone]

/-- C16 (unregistered-resource lookup fails fast): when the pending list holds a barrier for a
resource `R` that has no entry in the global table, either because it was never registered or
because `removeGlobalResourceState(R)` erased it, `flushPendingResourceBarriers` ends in an
assertion failure; it emits no barrier, so none with an invented before-state. -/
theorem unregistered_lookup_fails (t : dx_resource_state_tracker) (global : state_table)
    (commandList : List resource_barrier) (p : pending_barrier)
    (hp : p ∈ t.pendingResourceBarriers) :
    (global p.pResource = none →
        flushPendingResourceBarriers t global commandList = .error fault.assertion) ∧
      flushPendingResourceBarriers t (removeGlobalResourceState global p.pResource)
          commandList = .error fault.assertion := by
  constructor
  · intro hnone
    simp only [flushPendingResourceBarriers,
      resolvePendingList_unregistered global _ p hp hnone]
  · have hnone : removeGlobalResourceState global p.pResource p.pResource = none :=
      state_table.find_erase_same global p.pResource
    simp only [flushPendingResourceBarriers,
      resolvePendingList_unregistered _ _ p hp hnone]

theorem unregistered_lookup_fails_witness :
    flushPendingResourceBarriers
        ⟨[], [⟨7, 4294967295, 4⟩], state_table.insert state_table.empty 7 ⟨4, ⟨[], 1⟩⟩⟩
        (removeGlobalResourceState (state_table.insert state_table.empty 7 ⟨0, ⟨[], 1⟩⟩) 7)
        [] = .error fault.assertion :=
  (unregistered_lookup_fails
    ⟨[], [⟨7, 4294967295, 4⟩], state_table.insert state_table.empty 7 ⟨4, ⟨[], 1⟩⟩⟩
    (state_table.insert state_table.empty 7 ⟨0, ⟨[], 1⟩⟩) [] ⟨7, 4294967295, 4⟩
    (List.mem_singleton.mpr rfl)).2

/-- The resolution of a pending list reads the global table at the resources of the pending
barriers only. -/
theorem resolvePendingList_congr (g1 g2 : state_table) (ps : List pending_barrier) :
    (∀ p ∈ ps, g1 p.pResource = g2 p.pResource) →
      resolvePendingList g1 ps = resolvePendingList g2 ps := by
  induction ps with
  | nil =>
    intro _
    rfl
  | cons q ps ih =>
    intro h
    have hq : resolvePending g1 q = resolvePending g2 q := by
      simp only [resolvePending, h q (List.mem_cons_self q ps)]
    simp only [resolvePendingList, hq, ih (fun p hp => h p (List.mem_cons_of_mem q hp))]

/-- A submission in terms of the resolution of the pending list and the check of the commit. -/
theorem submit_eq (t : dx_resource_state_tracker) (global : state_table) :
    submit t global =
      match resolvePendingList global t.pendingResourceBarriers with
      | .ok bs =>
        if t.finalResourceState.entries.all (fun e => (global e.1).isSome) then
          .ok (bs ++ t.resourceBarriers, overwriteEntries t.finalResourceState global)
        else .error fault.assertion
      | .error _ => .error fault.assertion := by
  unfold submit flushResourceBarriers flushPendingResourceBarriers commitFinalResourceStates
  cases hr : resolvePendingList global t.pendingResourceBarriers with
  | error e =>
    have he := resolvePendingList_error global _ e hr
    subst he
    rfl
  | ok bs =>
    by_cases hc : t.finalResourceState.entries.all (fun e => (global e.1).isSome) = true
    · simp [hc]
    · simp [hc]

/-- The commit of a recording does not change the global records of the resources that the
recording has not touched. -/
theorem commit_untouched (f global : state_table) (R : Nat) (h : f R = none) :
    (overwriteEntries f global) R = global R := by
  rw [find_overwriteEntries, h]
  cases global R <;> rfl

/-- A commit neither adds nor removes entries: the check of a later commit sees the same
registered resources. -/
theorem check_overwrite (t : dx_resource_state_tracker) (f global : state_table) :
    t.finalResourceState.entries.all (fun e => ((overwriteEntries f global) e.1).isSome) =
      t.finalResourceState.entries.all (fun e => (global e.1).isSome) := by
  have hfun : (fun e : Nat × resource_state => ((overwriteEntries f global) e.1).isSome) =
      (fun e : Nat × resource_state => (global e.1).isSome) := by
    funext e
    rw [find_overwriteEntries]
    cases global e.1 <;> rfl
  rw [hfun]

/-- The commits of two recordings that touch disjoint resources commute. -/
theorem commit_comm (fa fb global : state_table)
    (hdisjoint : ∀ R, fa R = none ∨ fb R = none) :
    overwriteEntries fa (overwriteEntries fb global) =
      overwriteEntries fb (overwriteEntries fa global) := by
  have hfst : ∀ (f : state_table) (e : Nat × resource_state), (overwriteEntry f e).1 = e.1 := by
    intro f e
    unfold overwriteEntry
    split <;> rfl
  have hnone : ∀ (f : state_table) (e : Nat × resource_state), f e.1 = none →
      overwriteEntry f e = e := by
    intro f e h
    unfold overwriteEntry
    rw [h]
  have hpoint : ∀ e : Nat × resource_state,
      overwriteEntry fa (overwriteEntry fb e) = overwriteEntry fb (overwriteEntry fa e) := by
    intro e
    rcases hdisjoint e.1 with h | h
    · rw [hnone fa e h, hnone fa (overwriteEntry fb e) (by rw [hfst fb e]; exact h)]
    · rw [hnone fb e h, hnone fb (overwriteEntry fa e) (by rw [hfst fa e]; exact h)]
  unfold overwriteEntries
  simp only [List.map_map]
  congr 1
  apply List.map_congr_left
  intro e _
  exact hpoint e

/-- The pending barriers of `a` resolve against the table committed by `b` as they do against
the table before that commit, when `b` touches no resource of a pending barrier of `a`. -/
theorem resolve_after_commit (a b : dx_resource_state_tracker) (global : state_table)
    (hdisjoint : ∀ R, a.finalResourceState R = none ∨ b.finalResourceState R = none)
    (ha : ∀ p ∈ a.pendingResourceBarriers, a.finalResourceState p.pResource ≠ none) :
    resolvePendingList (overwriteEntries b.finalResourceState global)
        a.pendingResourceBarriers =
      resolvePendingList global a.pendingResourceBarriers := by
  apply resolvePendingList_congr
  intro p hp
  rcases hdisjoint p.pResource with h | h
  · exact absurd h (ha p hp)
  · exact commit_untouched b.finalResourceState global _ h

/-- An inserted record leaves present every resource that was present. -/
theorem insert_present (m : state_table) (R k : Nat) (r : resource_state)
    (h : m k ≠ none) : m.insert R r k ≠ none := by
  rw [state_table.find_insert]
  split
  · simp
  · exact h

/-- The trackers built by `transitionResource` keep every pending barrier's resource in the
per-recording table: the property holds for a fresh recording and every returning call
preserves it. -/
theorem transition_pending_in_table (t t1 : dx_resource_state_tracker) (R n st s : Nat)
    (hinv : ∀ p ∈ t.pendingResourceBarriers, t.finalResourceState p.pResource ≠ none)
    (hcall : transitionResource t R n st s = .ok t1) :
    (∀ p ∈ fresh.pendingResourceBarriers, fresh.finalResourceState p.pResource ≠ none) ∧
      ∀ p ∈ t1.pendingResourceBarriers, t1.finalResourceState p.pResource ≠ none := by
  refine ⟨fun p hp => by simp [fresh] at hp, ?_⟩
  unfold transitionResource at hcall
  split at hcall
  · simp only [Except.ok.injEq] at hcall
    subst hcall
    intro p hp
    simp only [List.mem_append, List.mem_singleton] at hp
    rcases hp with h | h
    · exact insert_present _ R _ _ (hinv p h)
    · subst h
      simp [state_table.find_insert]
  · split at hcall
    · split at hcall
      · simp only [Except.ok.injEq] at hcall
        subst hcall
        exact fun p hp => insert_present _ R _ _ (hinv p hp)
      · simp at hcall
    · split at hcall
      · simp at hcall
      · split at hcall
        · simp only [Except.ok.injEq] at hcall
          subst hcall
          exact hinv
        · split at hcall
          · simp only [Except.ok.injEq] at hcall
            subst hcall
            exact fun p hp => insert_present _ R _ _ (hinv p hp)
          · simp at hcall

/-- C17 (submission-order independence on disjoint resources): for two trackers `a` and `b`
whose per-recording tables touch disjoint sets of resources (each pending barrier being for a
resource of its own tracker's table), submitting (flushing, then committing) `a` then `b` gives
the same outcome as submitting `b` then `a`: the same emitted barriers for each tracker and the
same final global table, or a failure in both orders. When the resources of both tables are
registered and the pending barriers of both resolve against the initial global table, both
orders return, each tracker emits what it emits against the initial table, and the final table
is the one committed by `a` and then by `b`. -/
theorem submission_order_independent (a b : dx_resource_state_tracker) (global : state_table)
    (hdisjoint : ∀ R, a.finalResourceState R = none ∨ b.finalResourceState R = none)
    (ha : ∀ p ∈ a.pendingResourceBarriers, a.finalResourceState p.pResource ≠ none)
    (hb : ∀ p ∈ b.pendingResourceBarriers, b.finalResourceState p.pResource ≠ none) :
    submitBoth a b global =
        Except.map (fun x => (x.2.1, x.1, x.2.2)) (submitBoth b a global) ∧
      ∀ ea eb, resolvePendingList global a.pendingResourceBarriers = .ok ea →
        resolvePendingList global b.pendingResourceBarriers = .ok eb →
        (∀ k, a.finalResourceState k ≠ none → global k ≠ none) →
        (∀ k, b.finalResourceState k ≠ none → global k ≠ none) →
        ∃ ga gab, commitFinalResourceStates a global = .ok ga ∧
          commitFinalResourceStates b ga = .ok gab ∧
          submitBoth a b global =
            .ok (ea ++ a.resourceBarriers, eb ++ b.resourceBarriers, gab) ∧
          submitBoth b a global =
            .ok (eb ++ b.resourceBarriers, ea ++ a.resourceBarriers, gab) := by
  have hab := resolve_after_commit a b global hdisjoint ha
  have hba := resolve_after_commit b a global (fun R => (hdisjoint R).symm) hb
  have hcomm := commit_comm a.finalResourceState b.finalResourceState global hdisjoint
  have hca := check_overwrite a b.finalResourceState global
  have hcb := check_overwrite b a.finalResourceState global
  constructor
  · simp only [submitBoth, submit_eq, hab, hba, hca, hcb]
    cases hra : resolvePendingList global a.pendingResourceBarriers with
    | error e1 =>
      cases hrb : resolvePendingList global b.pendingResourceBarriers with
      | error e2 => simp [hba, hrb, Except.map]
      | ok eb =>
        by_cases hb1 : b.finalResourceState.entries.all (fun e => (global e.1).isSome) = true
        · simp [hab, hra, hb1, Except.map]
        · simp [hb1, Except.map]
    | ok ea =>
      by_cases ha1 : a.finalResourceState.entries.all (fun e => (global e.1).isSome) = true
      · cases hrb : resolvePendingList global b.pendingResourceBarriers with
        | error e2 => simp [ha1, hba, hrb, Except.map]
        | ok eb =>
          by_cases hb1 : b.finalResourceState.entries.all (fun e => (global e.1).isSome) = true
          · simp [ha1, hb1, hab, hba, hra, hrb, hca, hcb, hcomm, Except.map]
          · simp [ha1, hb1, hba, hrb, hcb, Except.map]
      · cases hrb : resolvePendingList global b.pendingResourceBarriers with
        | error e2 => simp [ha1, Except.map]
        | ok eb =>
          by_cases hb1 : b.finalResourceState.entries.all (fun e => (global e.1).isSome) = true
          · simp [ha1, hb1, hab, hra, hca, Except.map]
          · simp [ha1, hb1, Except.map]
  · intro ea eb hra hrb hrega hregb
    have ha1 := (registered_iff a global).mpr hrega
    have hb1 := (registered_iff b global).mpr hregb
    refine ⟨overwriteEntries a.finalResourceState global,
      overwriteEntries b.finalResourceState (overwriteEntries a.finalResourceState global),
      ?_, ?_, ?_, ?_⟩
    · simp only [commitFinalResourceStates, ha1, if_true]
    · simp only [commitFinalResourceStates, hcb, hb1, if_true]
    · simp [submitBoth, submit_eq, hba, hra, hrb, hcb, ha1, hb1]
    · simp [submitBoth, submit_eq, hab, hra, hrb, hca, ha1, hb1, hcomm]

theorem submission_order_independent_witness :
    ∃ ga gab,
      commitFinalResourceStates
        ⟨[⟨7, 4294967295, 4, 128⟩], [⟨7, 4294967295, 4⟩],
          state_table.insert state_table.empty 7 ⟨128, ⟨[], 1⟩⟩⟩
        ((state_table.insert state_table.empty 7 ⟨0, ⟨[], 1⟩⟩).insert 9 ⟨0, ⟨[1, 2], 2⟩⟩) =
        .ok ga ∧
      commitFinalResourceStates
        ⟨[], [⟨9, 1, 8⟩], state_table.insert state_table.empty 9 ⟨8, ⟨[], 2⟩⟩⟩ ga = .ok gab ∧
      submitBoth
        ⟨[⟨7, 4294967295, 4, 128⟩], [⟨7, 4294967295, 4⟩],
          state_table.insert state_table.empty 7 ⟨128, ⟨[], 1⟩⟩⟩
        ⟨[], [⟨9, 1, 8⟩], state_table.insert state_table.empty 9 ⟨8, ⟨[], 2⟩⟩⟩
        ((state_table.insert state_table.empty 7 ⟨0, ⟨[], 1⟩⟩).insert 9 ⟨0, ⟨[1, 2], 2⟩⟩) =
        .ok ([⟨7, 4294967295, 0, 4⟩] ++ [⟨7, 4294967295, 4, 128⟩], [⟨9, 1, 2, 8⟩] ++ [], gab) ∧
      submitBoth
        ⟨[], [⟨9, 1, 8⟩], state_table.insert state_table.empty 9 ⟨8, ⟨[], 2⟩⟩⟩
        ⟨[⟨7, 4294967295, 4, 128⟩], [⟨7, 4294967295, 4⟩],
          state_table.insert state_table.empty 7 ⟨128, ⟨[], 1⟩⟩⟩
        ((state_table.insert state_table.empty 7 ⟨0, ⟨[], 1⟩⟩).insert 9 ⟨0, ⟨[1, 2], 2⟩⟩) =
        .ok ([⟨9, 1, 2, 8⟩] ++ [], [⟨7, 4294967295, 0, 4⟩] ++ [⟨7, 4294967295, 4, 128⟩], gab) :=
  (submission_order_independent
    ⟨[⟨7, 4294967295, 4, 128⟩], [⟨7, 4294967295, 4⟩],
      state_table.insert state_table.empty 7 ⟨128, ⟨[], 1⟩⟩⟩
    ⟨[], [⟨9, 1, 8⟩], state_table.insert state_table.empty 9 ⟨8, ⟨[], 2⟩⟩⟩
    ((state_table.insert state_table.empty 7 ⟨0, ⟨[], 1⟩⟩).insert 9 ⟨0, ⟨[1, 2], 2⟩⟩)
    (by
      intro R
      by_cases h : R = 7
      · right
        subst h
        rfl
      · left
        simp [state_table.find_insert, state_table.find_empty, h])
    (by
      intro p hp
      simp only [List.mem_singleton] at hp
      subst hp
      simp [state_table.find_insert])
    (by
      intro p hp
      simp only [List.mem_singleton] at hp
      subst hp
      simp [state_table.find_insert])).2 _ _ rfl rfl
    (by
      intro k hk
      by_cases h : k = 7
      · subst h
        decide
      · simp [state_table.find_insert, state_table.find_empty, h] at hk)
    (by
      intro k hk
      by_cases h : k = 9
      · subst h
        decide
      · simp [state_table.find_insert, state_table.find_empty, h] at hk)

namespace resource_state

/-- A specific-index write on a record with capacity `n` whose sequence is empty or of length
`n`: the call returns, the whole-resource state is kept, slot `i` then yields `T` and every
other slot below `n` yields what it yielded before. -/
theorem set_get (r : resource_state) (n i j T : Nat) (hn : n < 2 ^ 32)
    (hcap : r.subresourceStates.cap = n)
    (hlen : r.subresourceStates.elems = [] ∨ r.subresourceStates.elems.length = n)
    (hi : i < n) (hj : j < n) :
    ∃ r1, r.setSubresourceState i T = .ok r1 ∧ r1.state = r.state ∧
      (j = i → r1.getSubresourceState j = .ok T) ∧
      (j ≠ i → r1.getSubresourceState j = r.getSubresourceState j) := by
  obtain ⟨s, ⟨l, c⟩⟩ := r
  simp only at hcap hlen
  subst hcap
  have hne := sentinel_not_lt i c hn hi
  by_cases hnil : l = []
  · subst hnil
    refine ⟨_, set_uniform s c i T hne hi, rfl, ?_, ?_⟩
    · intro hji
      subst hji
      exact get_slot s c j T _ (by simp [hj])
    · intro hji
      rw [get_uniform]
      exact get_slot s c j s _ (by simp [List.getElem?_set, Ne.symm hji, hj])
  · have hl : l.length = c := by
      rcases hlen with h | h
      · exact absurd h hnil
      · exact h
    refine ⟨_, set_granular s c i T l hl hnil hne hi, rfl, ?_, ?_⟩
    · intro hji
      subst hji
      exact get_slot s c j T _ (by simp [hl, hj])
    · intro hji
      have hjl : j < l.length := by omega
      rw [get_granular s c j l hjl]
      exact get_slot s c j _ _ (by simp [List.getElem?_set, Ne.symm hji, hjl])

/-- C18 (pointwise update): on every record reached from `initialize(n, S)` by
`setSubresourceState` calls with valid indices (so uniform or already granular), for `i < n`,
`j < n` and every state `T`, `setSubresourceState(i, T)` returns and afterwards
`getSubresourceState(j)` is `T` when `j = i` and what it was before the call when `j != i`; the
whole-resource state field is unchanged by the write. -/
theorem pointwise_update (r0 : resource_state) (n S i j T : Nat) (calls : List (Nat × Nat))
    (hempty : r0.subresourceStates.elems = []) (hcap : r0.subresourceStates.cap ≤ n)
    (hn : n < 2 ^ 32)
    (hcalls : ∀ c ∈ calls, c.1 < n ∨ c.1 = D3D12_RESOURCE_BARRIER_ALL_SUBRESOURCES)
    (hi : i < n) (hj : j < n) :
    ∃ r, (r0.initialize_ n S).setSequence calls = .ok r ∧
      ∃ r1, r.setSubresourceState i T = .ok r1 ∧ r1.state = r.state ∧
        (j = i → r1.getSubresourceState j = .ok T) ∧
        (j ≠ i → r1.getSubresourceState j = r.getSubresourceState j) := by
  rw [initialize_eq r0 n S hempty hcap]
  obtain ⟨r, hr, hcapr, hlen⟩ :=
    setSequence_preserves n hn calls ⟨S, ⟨[], n⟩⟩ rfl (Or.inl rfl) hcalls
  exact ⟨r, hr, set_get r n i j T hn hcapr hlen hi hj⟩

theorem pointwise_update_witness :
    ∃ r, (initialize_ ⟨0, ⟨[], 0⟩⟩ 3 1).setSequence [(2, 4), (0, 16)] = .ok r ∧
      ∃ r1, r.setSubresourceState 1 8 = .ok r1 ∧ r1.state = r.state ∧
        (2 = 1 → r1.getSubresourceState 2 = .ok 8) ∧
        (2 ≠ 1 → r1.getSubresourceState 2 = r.getSubresourceState 2) :=
  pointwise_update ⟨0, ⟨[], 0⟩⟩ 3 1 1 2 8 [(2, 4), (0, 16)]
    rfl (by decide) (by norm_num) (by decide) (by decide) (by decide)

/-- C20 (reading with the sentinel): on a record whose per-subresource sequence is non-empty
(its length, a `uint32` subresource count, is below 2^32), `getSubresourceState(ALL_SUBRESOURCES)`
fails its assertion, the sentinel 0xFFFFFFFF not being below the sequence length; on a record
with an empty sequence it returns the whole-resource state. -/
theorem sentinel_read (r : resource_state)
    (hsize : r.subresourceStates.elems.length < 2 ^ 32) :
    (r.subresourceStates.elems ≠ [] →
        r.getSubresourceState D3D12_RESOURCE_BARRIER_ALL_SUBRESOURCES =
          .error fault.assertion) ∧
      (r.subresourceStates.elems = [] →
        r.getSubresourceState D3D12_RESOURCE_BARRIER_ALL_SUBRESOURCES = .ok r.state) := by
  obtain ⟨s, ⟨l, c⟩⟩ := r
  simp only at hsize
  constructor
  · intro hnil
    simp only [ne_eq] at hnil
    have hlt : ¬ D3D12_RESOURCE_BARRIER_ALL_SUBRESOURCES < l.length := by
      unfold D3D12_RESOURCE_BARRIER_ALL_SUBRESOURCES
      omega
    simp [getSubresourceState, std_vector.empty, hnil, hlt]
  · intro hnil
    simp only at hnil
    subst hnil
    exact get_uniform s c _

theorem sentinel_read_witness :
    getSubresourceState ⟨1, ⟨[1, 1, 4, 1], 4⟩⟩ D3D12_RESOURCE_BARRIER_ALL_SUBRESOURCES =
      .error fault.assertion :=
  (sentinel_read ⟨1, ⟨[1, 1, 4, 1], 4⟩⟩ (by decide)).1 (by decide)

/-- A record with an empty sequence stands for `Uniform`. -/
theorem toTagged_uniform (S c : Nat) :
    toTagged ⟨S, ⟨[], c⟩⟩ = tagged_state.Uniform S := by
  simp [toTagged, std_vector.empty]

/-- A record with a non-empty sequence stands for `PerSubresource`. -/
theorem toTagged_granular (S c : Nat) (l : List Nat) (hnil : l ≠ []) :
    toTagged ⟨S, ⟨l, c⟩⟩ = tagged_state.PerSubresource l := by
  simp [toTagged, std_vector.empty, hnil]

/-- One write with an index below `n` or the sentinel, on a record with capacity `n` whose
sequence is empty or of length `n`, is the write of the tagged-variant model. -/
theorem set_toTagged (r : resource_state) (n idx st : Nat) (hn : n < 2 ^ 32)
    (hcap : r.subresourceStates.cap = n)
    (hlen : r.subresourceStates.elems = [] ∨ r.subresourceStates.elems.length = n)
    (hidx : idx < n ∨ idx = D3D12_RESOURCE_BARRIER_ALL_SUBRESOURCES) :
    ∃ r1, r.setSubresourceState idx st = .ok r1 ∧
      r1.toTagged = tagged_state.set n r.toTagged idx st := by
  obtain ⟨s, ⟨l, c⟩⟩ := r
  simp only at hcap hlen
  subst hcap
  by_cases hall : idx = D3D12_RESOURCE_BARRIER_ALL_SUBRESOURCES
  · subst hall
    refine ⟨_, set_all _ st, ?_⟩
    simp [toTagged_uniform, tagged_state.set]
  · have hi : idx < c := by
      rcases hidx with h | h
      · exact h
      · exact absurd h hall
    by_cases hnil : l = []
    · subst hnil
      refine ⟨_, set_uniform s c idx st hall hi, ?_⟩
      have hne : (List.replicate c s).set idx st ≠ [] := by
        intro h
        have hlen0 := congrArg List.length h
        simp at hlen0
        omega
      rw [toTagged_granular s c _ hne, toTagged_uniform]
      simp [tagged_state.set, hall]
    · have hl : l.length = c := by
        rcases hlen with h | h
        · exact absurd h hnil
        · exact h
      refine ⟨_, set_granular s c idx st l hl hnil hall hi, ?_⟩
      have hne : l.set idx st ≠ [] := by
        intro h
        have hlen0 := congrArg List.length h
        rw [List.length_set, hl, List.length_nil] at hlen0
        omega
      rw [toTagged_granular s c _ hne, toTagged_granular s c l hnil]
      simp [tagged_state.set, hall]

/-- A lookup below `n`, on a record whose sequence is empty or of length `n`, is the lookup of
the tagged-variant model. -/
theorem get_toTagged (r : resource_state) (n j : Nat)
    (hlen : r.subresourceStates.elems = [] ∨ r.subresourceStates.elems.length = n)
    (hj : j < n) :
    ∃ v, r.getSubresourceState j = .ok v ∧ r.toTagged.get j = some v := by
  obtain ⟨s, ⟨l, c⟩⟩ := r
  simp only at hlen
  by_cases hnil : l = []
  · subst hnil
    exact ⟨s, get_uniform s c j, by simp [toTagged_uniform, tagged_state.get]⟩
  · have hl : l.length = n := by
      rcases hlen with h | h
      · exact absurd h hnil
      · exact h
    have hjl : j < l.length := by omega
    refine ⟨l.get ⟨j, hjl⟩, get_granular s c j l hjl, ?_⟩
    rw [toTagged_granular s c l hnil]
    simp [tagged_state.get, hjl]

/-- C19 (the empty-vector representation refines the tagged variant): mapping a record with an
empty sequence to `Uniform(state)` and one with a non-empty sequence to
`PerSubresource(sequence)`, the record set up by `initialize(n, S)` maps to `Uniform(S)`, and on
every record reached from it by valid `setSubresourceState` calls, a further call with an index
below `n` or the sentinel returns and commutes with the write of the tagged-variant model, and
`getSubresourceState(j)` returns the value of the model's lookup for every `j < n`. -/
theorem tagged_refinement (r0 : resource_state) (n S idx st : Nat) (calls : List (Nat × Nat))
    (hempty : r0.subresourceStates.elems = []) (hcap : r0.subresourceStates.cap ≤ n)
    (hn : n < 2 ^ 32)
    (hcalls : ∀ c ∈ calls, c.1 < n ∨ c.1 = D3D12_RESOURCE_BARRIER_ALL_SUBRESOURCES)
    (hidx : idx < n ∨ idx = D3D12_RESOURCE_BARRIER_ALL_SUBRESOURCES) :
    (r0.initialize_ n S).toTagged = tagged_state.Uniform S ∧
      ∃ r, (r0.initialize_ n S).setSequence calls = .ok r ∧
        (∃ r1, r.setSubresourceState idx st = .ok r1 ∧
          r1.toTagged = tagged_state.set n r.toTagged idx st) ∧
        ∀ j, j < n → ∃ v, r.getSubresourceState j = .ok v ∧ r.toTagged.get j = some v := by
  rw [initialize_eq r0 n S hempty hcap]
  obtain ⟨r, hr, hcapr, hlen⟩ :=
    setSequence_preserves n hn calls ⟨S, ⟨[], n⟩⟩ rfl (Or.inl rfl) hcalls
  exact ⟨toTagged_uniform S n, r, hr, set_toTagged r n idx st hn hcapr hlen hidx,
    fun j hj => get_toTagged r n j hlen hj⟩

theorem tagged_refinement_witness :
    (initialize_ ⟨0, ⟨[], 0⟩⟩ 3 1).toTagged = tagged_state.Uniform 1 ∧
      ∃ r, (initialize_ ⟨0, ⟨[], 0⟩⟩ 3 1).setSequence [(2, 4), (4294967295, 8), (0, 16)] =
          .ok r ∧
        (∃ r1, r.setSubresourceState 1 32 = .ok r1 ∧
          r1.toTagged = tagged_state.set 3 r.toTagged 1 32) ∧
        ∀ j, j < 3 → ∃ v, r.getSubresourceState j = .ok v ∧ r.toTagged.get j = some v :=
  tagged_refinement ⟨0, ⟨[], 0⟩⟩ 3 1 1 32 [(2, 4), (4294967295, 8), (0, 16)]
    rfl (by decide) (by norm_num) (by decide) (by decide)

/-- The call `reserve(n)` keeps the elements. -/
theorem reserve_elems (v : std_vector) (n : Nat) : (v.reserve n).elems = v.elems := by
  unfold std_vector.reserve
  split <;> rfl

/-- C21 (`initialize` does not discard granular data): on a record whose per-subresource
sequence is non-empty, `initialize(n, S)` overwrites only the whole-resource state and leaves
the sequence as it was, so `getSubresourceState(j)` afterwards is what it was before, the old
state of slot `j` for every `j` below the length, not `S`; on a record with an empty sequence
`initialize(n, S)` makes every lookup return `S`. -/
theorem initialize_keeps_granular (r : resource_state) (n S : Nat) :
    (r.initialize_ n S).state = S ∧
      (r.initialize_ n S).subresourceStates.elems = r.subresourceStates.elems ∧
      (r.subresourceStates.elems ≠ [] →
        (∀ j, (r.initialize_ n S).getSubresourceState j = r.getSubresourceState j) ∧
        ∀ j v, r.subresourceStates.elems[j]? = some v →
          (r.initialize_ n S).getSubresourceState j = .ok v) ∧
      (r.subresourceStates.elems = [] →
        ∀ j, (r.initialize_ n S).getSubresourceState j = .ok S) := by
  obtain ⟨s, v⟩ := r
  have helems := reserve_elems v n
  unfold initialize_
  generalize v.reserve n = w at helems ⊢
  obtain ⟨l1, c1⟩ := w
  obtain ⟨l, c⟩ := v
  simp only at helems
  subst helems
  refine ⟨rfl, rfl, ?_, ?_⟩
  · intro hnil
    simp only [ne_eq] at hnil
    constructor
    · intro j
      simp [getSubresourceState, std_vector.empty, hnil]
    · intro j w hj
      exact get_slot S c1 j w l1 hj
  · intro hnil
    simp only at hnil
    subst hnil
    exact fun j => get_uniform S c1 j

theorem initialize_keeps_granular_witness :
    (initialize_ ⟨1, ⟨[1, 4], 2⟩⟩ 2 8).getSubresourceState 1 = .ok 4 :=
  ((initialize_keeps_granular ⟨1, ⟨[1, 4], 2⟩⟩ 2 8).2.2.1 (by decide)).2 1 4 rfl

end resource_state

end dx_resource_state_tracker

/-! ## `dx_game::resize` -/

namespace dx_game

/-- C28 (resize never produces a zero dimension): when `(w, h)` equals the stored size,
`resize(w, h)` changes nothing and resizes no render target; otherwise the stored size becomes
`(max(1, w), max(1, h))` and both render targets, the gbuffer one first, are resized with
exactly those values, which are never 0. -/
theorem resize_never_zero (g : dx_game) (w h : Nat) :
    (w = g.width ∧ h = g.height → g.resize w h = g) ∧
      (¬ (w = g.width ∧ h = g.height) →
        (g.resize w h).width = max 1 w ∧ (g.resize w h).height = max 1 h ∧
        (g.resize w h).renderTargetResizes =
          g.renderTargetResizes ++
            [(render_target_id.gbufferRT, max 1 w, max 1 h),
              (render_target_id.lightingRT, max 1 w, max 1 h)] ∧
        0 < max 1 w ∧ 0 < max 1 h) := by
  constructor
  · rintro ⟨hw, hh⟩
    simp [resize, hw, hh]
  · intro hne
    have hcond : w ≠ g.width ∨ h ≠ g.height := by
      by_contra hc
      push_neg at hc
      exact hne hc
    have hr : g.resize w h =
        ⟨max 1 w, max 1 h,
          g.renderTargetResizes ++
            [(render_target_id.gbufferRT, max 1 w, max 1 h),
              (render_target_id.lightingRT, max 1 w, max 1 h)]⟩ := by
      simp only [resize, hcond, if_true]
    rw [hr]
    exact ⟨rfl, rfl, rfl, by omega, by omega⟩

theorem resize_never_zero_witness :
    (dx_game.resize ⟨1280, 720, []⟩ 0 720).width = 1 ∧
      (dx_game.resize ⟨1280, 720, []⟩ 0 720).renderTargetResizes =
        [(render_target_id.gbufferRT, 1, 720), (render_target_id.lightingRT, 1, 720)] :=
  ⟨((resize_never_zero ⟨1280, 720, []⟩ 0 720).2 (by decide)).1,
    ((resize_never_zero ⟨1280, 720, []⟩ 0 720).2 (by decide)).2.2.1⟩

end dx_game

/-! ## The mesh generators of `model.h` -/

theorem add32_eq (x y : Nat) (h : x + y < 2 ^ 32) : add32 x y = x + y :=
  Nat.mod_eq_of_lt h

theorem mul32_eq (x y : Nat) (h : x * y < 2 ^ 32) : mul32 x y = x * y :=
  Nat.mod_eq_of_lt h

theorem sub32_eq (x y : Nat) (hx : x < 2 ^ 32) (h : y ≤ x) : sub32 x y = x - y := by
  unfold sub32
  have hsum : x + 2 ^ 32 - y = (x - y) + 2 ^ 32 := by omega
  rw [hsum, Nat.add_mod_right]
  exact Nat.mod_eq_of_lt (by omega)

/-- Loop invariants: a property that holds before the loop and is carried by every iteration
holds after the loop. -/
theorem forLoop_induction {σ : Type} (P : Nat → σ → Prop) (body : Nat → σ → σ) (s : σ)
    (n : Nat) (h0 : P 0 s) (hstep : ∀ i t, i < n → P i t → P (i + 1) (body i t)) :
    P n (forLoop n body s) := by
  induction n with
  | zero => exact h0
  | succ k ih =>
    exact hstep k _ (Nat.lt_succ_self k)
      (ih (fun i t hi hp => hstep i t (Nat.lt_succ_of_lt hi) hp))

namespace mesh_arrays

/-- One vertex write on arrays whose vertex writes so far are `0, ..., v - 1`. -/
theorem writeVertex_range (v ti : Nat) (tw : List (Nat × indexed_triangle32))
    (h : v + 1 < 2 ^ 32) :
    writeVertex ⟨List.range v, v, tw, ti⟩ = ⟨List.range (v + 1), v + 1, tw, ti⟩ := by
  simp only [writeVertex, add32_eq v 1 h, List.range_succ]

/-- One ring of `n` vertex writes. -/
theorem writeRing_range (n v ti : Nat) (tw : List (Nat × indexed_triangle32))
    (h : v + n < 2 ^ 32) :
    forLoop n (fun _ m => writeVertex m) ⟨List.range v, v, tw, ti⟩ =
      ⟨List.range (v + n), v + n, tw, ti⟩ := by
  induction n with
  | zero => rfl
  | succ k ih =>
    simp only [forLoop]
    rw [ih (by omega), writeVertex_range (v + k) ti tw (by omega)]
    rfl

/-- The rings: `ringCount * slices` vertex writes at consecutive indices. -/
theorem writeRings_range (ringCount slices v ti : Nat) (tw : List (Nat × indexed_triangle32))
    (h : v + ringCount * slices < 2 ^ 32) :
    writeRings ringCount slices ⟨List.range v, v, tw, ti⟩ =
      ⟨List.range (v + ringCount * slices), v + ringCount * slices, tw, ti⟩ := by
  unfold writeRings
  induction ringCount with
  | zero => simp [forLoop]
  | succ k ih =>
    have hk : (k + 1) * slices = k * slices + slices := Nat.succ_mul k slices
    simp only [forLoop]
    rw [ih (by omega), writeRing_range slices _ ti tw (by omega), hk]
    simp only [Nat.add_assoc]

/-- One triangle write with indices below `V` keeps the arrays indexed. -/
theorem writeTriangle_indexed (V vi k : Nat) (vw : List Nat) (m : mesh_arrays)
    (t : indexed_triangle32) (hm : indexedUpTo V vw vi k m) (hk : k + 1 < 2 ^ 32)
    (ha : t.a < V) (hb : t.b < V) (hc : t.c < V) :
    indexedUpTo V vw vi (k + 1) (m.writeTriangle t) := by
  obtain ⟨h1, h2, h3, h4, h5⟩ := hm
  refine ⟨h1, h2, ?_, ?_, ?_⟩
  · simp only [writeTriangle, h3, add32_eq k 1 hk]
  · simp only [writeTriangle, List.map_append, h4, h3, List.map_cons, List.map_nil,
      List.range_succ]
  · intro w hw
    simp only [writeTriangle, List.mem_append, List.mem_singleton] at hw
    rcases hw with h | h
    · exact h5 w h
    · subst h
      exact ⟨ha, hb, hc⟩

/-- The index generation on arrays without triangles whose `vertIndex` is
`V = rowBound * slices + slices + 2`: it makes `2 * slices + rowBound * (2 * slices)` triangle
writes, at consecutive indices from 0, all with indices below `V`. -/
theorem writeIndices_indexed (slices rowBound V : Nat) (vw : List Nat) (m : mesh_arrays)
    (hs : 2 < slices) (hV : V = rowBound * slices + slices + 2) (hV32 : V < 2 ^ 32)
    (hT : 2 * slices + rowBound * (2 * slices) < 2 ^ 32)
    (hm : indexedUpTo V vw V 0 m) :
    indexedUpTo V vw V (2 * slices + rowBound * (2 * slices)) (m.writeIndices slices rowBound) := by
  have hvi : m.vertIndex = V := hm.2.1
  have hs1 : sub32 slices 1 = slices - 1 := sub32_eq slices 1 (by omega) (by omega)
  have hRs : rowBound ≤ rowBound * slices := Nat.le_mul_of_pos_right rowBound (by omega)
  unfold writeIndices
  simp only [hs1, hvi]
  -- bottom cap
  have h1 : indexedUpTo V vw V (slices - 1)
      (forLoop (slices - 1) (fun x m => m.writeTriangle ⟨0, add32 x 1, add32 x 2⟩) m) := by
    apply forLoop_induction (fun i m => indexedUpTo V vw V i m)
    · exact hm
    · intro x t hx ht
      apply writeTriangle_indexed V V x vw t _ ht (by omega)
      · show 0 < V
        omega
      · show add32 x 1 < V
        simp (disch := omega) only [add32_eq]
        omega
      · show add32 x 2 < V
        simp (disch := omega) only [add32_eq]
        omega
  have h2 := writeTriangle_indexed V V (slices - 1) vw _ ⟨0, slices, 1⟩ h1 (by omega)
    (by show 0 < V; omega) (by show slices < V; omega) (by show 1 < V; omega)
  have hidx2 : slices - 1 + 1 = slices := by omega
  rw [hidx2] at h2
  -- quads between consecutive rings
  have h3 : indexedUpTo V vw V (slices + rowBound * (2 * slices))
      (forLoop rowBound
        (fun y m =>
          (forLoop (slices - 1)
            (fun x m =>
              (m.writeTriangle
                ⟨add32 (add32 (mul32 y slices) 1) x,
                  add32 (add32 (mul32 (add32 y 1) slices) 2) x,
                  add32 (add32 (mul32 y slices) 2) x⟩).writeTriangle
                ⟨add32 (add32 (mul32 y slices) 1) x,
                  add32 (add32 (mul32 (add32 y 1) slices) 1) x,
                  add32 (add32 (mul32 (add32 y 1) slices) 2) x⟩) m).writeTriangle
              ⟨add32 (mul32 y slices) slices, add32 (mul32 (add32 y 1) slices) 1,
                add32 (mul32 y slices) 1⟩ |>.writeTriangle
              ⟨add32 (mul32 y slices) slices, add32 (mul32 (add32 y 1) slices) slices,
                add32 (mul32 (add32 y 1) slices) 1⟩)
        ((forLoop (slices - 1) (fun x m => m.writeTriangle ⟨0, add32 x 1, add32 x 2⟩)
          m).writeTriangle ⟨0, slices, 1⟩)) := by
    apply forLoop_induction (fun i m => indexedUpTo V vw V (slices + i * (2 * slices)) m)
    · simpa using h2
    · intro y t hy ht
      have hy1 : (y + 1) * slices ≤ rowBound * slices := Nat.mul_le_mul_right slices hy
      have hy2 : (y + 1) * (2 * slices) ≤ rowBound * (2 * slices) :=
        Nat.mul_le_mul_right (2 * slices) hy
      rw [Nat.succ_mul] at hy1 hy2
      have e1 : add32 y 1 = y + 1 := add32_eq y 1 (by omega)
      have e2 : mul32 y slices = y * slices := mul32_eq y slices (by omega)
      have e3 : mul32 (y + 1) slices = y * slices + slices := by
        rw [mul32_eq (y + 1) slices (by rw [Nat.succ_mul]; omega), Nat.succ_mul]
      simp only [e1, e2, e3]
      have hinner : indexedUpTo V vw V (slices + y * (2 * slices) + 2 * (slices - 1))
          (forLoop (slices - 1)
            (fun x m =>
              (m.writeTriangle
                ⟨add32 (add32 (y * slices) 1) x, add32 (add32 (y * slices + slices) 2) x,
                  add32 (add32 (y * slices) 2) x⟩).writeTriangle
                ⟨add32 (add32 (y * slices) 1) x, add32 (add32 (y * slices + slices) 1) x,
                  add32 (add32 (y * slices + slices) 2) x⟩) t) := by
        apply forLoop_induction
          (fun i m => indexedUpTo V vw V (slices + y * (2 * slices) + 2 * i) m)
        · simpa using ht
        · intro x u hx hu
          have hu1 := writeTriangle_indexed V V _ vw u
            ⟨add32 (add32 (y * slices) 1) x, add32 (add32 (y * slices + slices) 2) x,
              add32 (add32 (y * slices) 2) x⟩ hu (by omega)
            (by show add32 (add32 (y * slices) 1) x < V
                simp (disch := omega) only [add32_eq]
                omega)
            (by show add32 (add32 (y * slices + slices) 2) x < V
                simp (disch := omega) only [add32_eq]
                omega)
            (by show add32 (add32 (y * slices) 2) x < V
                simp (disch := omega) only [add32_eq]
                omega)
          have hu2 := writeTriangle_indexed V V _ vw _
            ⟨add32 (add32 (y * slices) 1) x, add32 (add32 (y * slices + slices) 1) x,
              add32 (add32 (y * slices + slices) 2) x⟩ hu1 (by omega)
            (by show add32 (add32 (y * slices) 1) x < V
                simp (disch := omega) only [add32_eq]
                omega)
            (by show add32 (add32 (y * slices + slices) 1) x < V
                simp (disch := omega) only [add32_eq]
                omega)
            (by show add32 (add32 (y * slices + slices) 2) x < V
                simp (disch := omega) only [add32_eq]
                omega)
          have hidx : slices + y * (2 * slices) + 2 * x + 1 + 1 =
              slices + y * (2 * slices) + 2 * (x + 1) := by omega
          rw [hidx] at hu2
          exact hu2
      have hq1 := writeTriangle_indexed V V _ vw _
        ⟨add32 (y * slices) slices, add32 (y * slices + slices) 1, add32 (y * slices) 1⟩
        hinner (by omega)
        (by show add32 (y * slices) slices < V
            simp (disch := omega) only [add32_eq]
            omega)
        (by show add32 (y * slices + slices) 1 < V
            simp (disch := omega) only [add32_eq]
            omega)
        (by show add32 (y * slices) 1 < V
            simp (disch := omega) only [add32_eq]
            omega)
      have hq2 := writeTriangle_indexed V V _ vw _
        ⟨add32 (y * slices) slices, add32 (y * slices + slices) slices,
          add32 (y * slices + slices) 1⟩
        hq1 (by omega)
        (by show add32 (y * slices) slices < V
            simp (disch := omega) only [add32_eq]
            omega)
        (by show add32 (y * slices + slices) slices < V
            simp (disch := omega) only [add32_eq]
            omega)
        (by show add32 (y * slices + slices) 1 < V
            simp (disch := omega) only [add32_eq]
            omega)
      have hidx : slices + y * (2 * slices) + 2 * (slices - 1) + 1 + 1 =
          slices + (y * (2 * slices) + 2 * slices) := by omega
      rw [hidx] at hq2
      rw [Nat.succ_mul]
      exact hq2
  -- top cap
  have h4 := forLoop_induction
    (fun i m => indexedUpTo V vw V (slices + rowBound * (2 * slices) + i) m)
    (fun x m =>
      m.writeTriangle ⟨sub32 (sub32 V 2) x, sub32 (sub32 V 3) x, sub32 V 1⟩)
    _ (slices - 1) h3
    (by
      intro x t hx ht
      apply writeTriangle_indexed V V _ vw t _ ht (by omega)
      · show sub32 (sub32 V 2) x < V
        simp (disch := omega) only [sub32_eq]
        omega
      · show sub32 (sub32 V 3) x < V
        simp (disch := omega) only [sub32_eq]
        omega
      · show sub32 V 1 < V
        simp (disch := omega) only [sub32_eq]
        omega)
  have h5 := writeTriangle_indexed V V _ vw _
    ⟨sub32 (sub32 V 1) slices, sub32 V 2, sub32 V 1⟩ h4 (by omega)
    (by show sub32 (sub32 V 1) slices < V
        simp (disch := omega) only [sub32_eq]
        omega)
    (by show sub32 V 2 < V
        simp (disch := omega) only [sub32_eq]
        omega)
    (by show sub32 V 1 < V
        simp (disch := omega) only [sub32_eq]
        omega)
  have hidx : slices + rowBound * (2 * slices) + (slices - 1) + 1 =
      2 * slices + rowBound * (2 * slices) := by omega
  rw [hidx] at h5
  exact h5

end mesh_arrays

namespace cpu_mesh

/-- With `slices > 2`, `rows = R + 1 > 0` and no 32-bit overflow in the two array sizes,
`sphere` passes its assertions and returns arrays of the allocated sizes whose writes are
indexed and in range. -/
theorem sphere_indexed (slices R : Nat) (hs : 2 < slices)
    (hV : slices * (R + 1) + 2 < 2 ^ 32) (hT : 2 * (R + 1) * slices < 2 ^ 32) :
    ∃ m, sphere slices (R + 1) = some ⟨slices * (R + 1) + 2, 2 * (R + 1) * slices, m⟩ ∧
      mesh_arrays.indexedUpTo (slices * (R + 1) + 2) (List.range (slices * (R + 1) + 2))
        (slices * (R + 1) + 2) (2 * (R + 1) * slices) m := by
  have hmul : slices * (R + 1) = R * slices + slices := by ring
  have hmul2 : 2 * (R + 1) * slices = 2 * slices + R * (2 * slices) := by ring
  have hcomm : (R + 1) * slices = R * slices + slices := by ring
  rw [hmul] at hV
  rw [hmul2] at hT
  have e1 : mul32 slices (R + 1) = R * slices + slices := by
    rw [mul32_eq _ _ (by rw [hmul]; omega), hmul]
  have e2 : add32 (R * slices + slices) 2 = R * slices + slices + 2 := add32_eq _ _ (by omega)
  have e3 : mul32 2 (R + 1) = 2 * (R + 1) := by
    apply mul32_eq
    have hle2 : R * 2 ≤ R * (2 * slices) := Nat.mul_le_mul_left R (by omega)
    omega
  have e4 : mul32 (2 * (R + 1)) slices = 2 * slices + R * (2 * slices) := by
    rw [mul32_eq _ _ (by rw [hmul2]; omega), hmul2]
  have e5 : sub32 (R + 1) 1 = R := by
    have : R ≤ R * slices := Nat.le_mul_of_pos_right R (by omega)
    rw [sub32_eq (R + 1) 1 (by omega) (by omega)]
    omega
  have hv0 := mesh_arrays.writeVertex_range 0 0 [] (by norm_num)
  have hv1 := mesh_arrays.writeRings_range (R + 1) slices 1 0 [] (by rw [hcomm]; omega)
  have hv2 := mesh_arrays.writeVertex_range (1 + (R + 1) * slices) 0 [] (by rw [hcomm]; omega)
  have hcount : 1 + (R + 1) * slices + 1 = R * slices + slices + 2 := by rw [hcomm]; omega
  rw [hcount] at hv2
  have hidx := mesh_arrays.writeIndices_indexed slices R (R * slices + slices + 2)
    (List.range (R * slices + slices + 2))
    ⟨List.range (R * slices + slices + 2), R * slices + slices + 2, [], 0⟩
    hs rfl hV hT ⟨rfl, rfl, rfl, rfl, fun w hw => by simp at hw⟩
  refine ⟨mesh_arrays.writeIndices slices R
    ⟨List.range (R * slices + slices + 2), R * slices + slices + 2, [], 0⟩, ?_, ?_⟩
  · unfold sphere
    have hs' : slices > 2 := hs
    have hr' : R + 1 > 0 := Nat.succ_pos R
    simp only [hs', hr', not_true_eq_false, if_false, List.range_zero] at hv0 ⊢
    simp only [Nat.zero_add] at hv0
    rw [hv0, hv1, hv2]
    simp only [e1, e2, e3, e4, e5, ne_eq, not_true_eq_false, if_false, hidx.2.2.1, hmul, hmul2]
  · rw [hmul, hmul2]
    exact hidx

/-- With `slices > 2`, odd `rows > 0` and no 32-bit overflow in the two array sizes, `capsule`
passes its assertions and returns arrays of the allocated sizes whose writes are indexed and in
range. -/
theorem capsule_indexed (slices rows : Nat) (hs : 2 < slices) (hodd : rows % 2 = 1)
    (hV : slices * (rows + 1) + 2 < 2 ^ 32) (hT : 2 * (rows + 1) * slices < 2 ^ 32) :
    ∃ m, capsule slices rows = some ⟨slices * (rows + 1) + 2, 2 * (rows + 1) * slices, m⟩ ∧
      mesh_arrays.indexedUpTo (slices * (rows + 1) + 2) (List.range (slices * (rows + 1) + 2))
        (slices * (rows + 1) + 2) (2 * (rows + 1) * slices) m := by
  obtain ⟨h, hh⟩ : ∃ h, rows = 2 * h + 1 := ⟨rows / 2, by omega⟩
  have hhalf : rows / 2 = h := by omega
  have hmul : slices * (rows + 1) = rows * slices + slices := by ring
  have hmul2 : 2 * (rows + 1) * slices = 2 * slices + rows * (2 * slices) := by ring
  have hrings : (h + 1) * slices + (h + 1) * slices = rows * slices + slices := by
    rw [hh]; ring
  rw [hmul] at hV
  rw [hmul2] at hT
  have hle : rows ≤ rows * slices := Nat.le_mul_of_pos_right rows (by omega)
  have e0 : add32 rows 1 = rows + 1 := add32_eq _ _ (by omega)
  have e1 : mul32 slices (rows + 1) = rows * slices + slices := by
    rw [mul32_eq _ _ (by rw [hmul]; omega), hmul]
  have e2 : add32 (rows * slices + slices) 2 = rows * slices + slices + 2 :=
    add32_eq _ _ (by omega)
  have e3 : mul32 2 (rows + 1) = 2 * (rows + 1) := by
    apply mul32_eq
    have hle2 : rows * 2 ≤ rows * (2 * slices) := Nat.mul_le_mul_left rows (by omega)
    omega
  have e4 : mul32 (2 * (rows + 1)) slices = 2 * slices + rows * (2 * slices) := by
    rw [mul32_eq _ _ (by rw [hmul2]; omega), hmul2]
  have e5 : add32 (rows / 2) 1 = h + 1 := by
    rw [hhalf]
    exact add32_eq _ _ (by omega)
  have hv0 := mesh_arrays.writeVertex_range 0 0 [] (by norm_num)
  have hv1 := mesh_arrays.writeRings_range (h + 1) slices 1 0 [] (by omega)
  have hv2 := mesh_arrays.writeRings_range (h + 1) slices (1 + (h + 1) * slices) 0 []
    (by omega)
  have hv3 := mesh_arrays.writeVertex_range (1 + (h + 1) * slices + (h + 1) * slices) 0 []
    (by omega)
  have hcount : 1 + (h + 1) * slices + (h + 1) * slices + 1 = rows * slices + slices + 2 := by
    omega
  rw [hcount] at hv3
  have hidx := mesh_arrays.writeIndices_indexed slices rows (rows * slices + slices + 2)
    (List.range (rows * slices + slices + 2))
    ⟨List.range (rows * slices + slices + 2), rows * slices + slices + 2, [], 0⟩
    hs rfl hV hT ⟨rfl, rfl, rfl, rfl, fun w hw => by simp at hw⟩
  refine ⟨mesh_arrays.writeIndices slices rows
    ⟨List.range (rows * slices + slices + 2), rows * slices + slices + 2, [], 0⟩, ?_, ?_⟩
  · unfold capsule
    have hs' : slices > 2 := hs
    have hr' : rows > 0 := by omega
    simp only [hs', hr', hodd, not_true_eq_false, if_false, List.range_zero] at hv0 ⊢
    simp only [Nat.zero_add] at hv0
    simp only [e0, e5]
    rw [hv0, hv1, hv2, hv3]
    simp only [e1, e2, e3, e4, hmul, hmul2]
  · rw [hmul, hmul2]
    exact hidx

end cpu_mesh

namespace cpu_mesh

/-- The winding-order loop on the 12 triangles of the position-only cube. -/
theorem invertWinding_cube8 :
    invertWinding
      [⟨0, 1, 2⟩, ⟨1, 3, 2⟩, ⟨1, 5, 3⟩, ⟨5, 7, 3⟩, ⟨5, 4, 7⟩, ⟨4, 6, 7⟩,
        ⟨4, 0, 6⟩, ⟨0, 2, 6⟩, ⟨2, 3, 6⟩, ⟨3, 7, 6⟩, ⟨4, 5, 0⟩, ⟨5, 1, 0⟩] =
      [⟨0, 2, 1⟩, ⟨1, 2, 3⟩, ⟨1, 3, 5⟩, ⟨5, 3, 7⟩, ⟨5, 7, 4⟩, ⟨4, 7, 6⟩,
        ⟨4, 6, 0⟩, ⟨0, 6, 2⟩, ⟨2, 6, 3⟩, ⟨3, 6, 7⟩, ⟨4, 0, 5⟩, ⟨5, 0, 1⟩] := by
  decide

/-- The winding-order loop on the inverted triangles of the position-only cube. -/
theorem invertWinding_cube8_back :
    invertWinding
      [⟨0, 2, 1⟩, ⟨1, 2, 3⟩, ⟨1, 3, 5⟩, ⟨5, 3, 7⟩, ⟨5, 7, 4⟩, ⟨4, 7, 6⟩,
        ⟨4, 6, 0⟩, ⟨0, 6, 2⟩, ⟨2, 6, 3⟩, ⟨3, 6, 7⟩, ⟨4, 0, 5⟩, ⟨5, 0, 1⟩] =
      [⟨0, 1, 2⟩, ⟨1, 3, 2⟩, ⟨1, 5, 3⟩, ⟨5, 7, 3⟩, ⟨5, 4, 7⟩, ⟨4, 6, 7⟩,
        ⟨4, 0, 6⟩, ⟨0, 2, 6⟩, ⟨2, 3, 6⟩, ⟨3, 7, 6⟩, ⟨4, 5, 0⟩, ⟨5, 1, 0⟩] := by
  decide

/-- The winding-order loop on the 12 triangles of the 24-vertex cube. -/
theorem invertWinding_cube24 :
    invertWinding
      [⟨0, 1, 2⟩, ⟨1, 3, 2⟩, ⟨4, 5, 6⟩, ⟨5, 7, 6⟩, ⟨8, 9, 10⟩, ⟨9, 11, 10⟩,
        ⟨12, 13, 14⟩, ⟨13, 15, 14⟩, ⟨16, 17, 18⟩, ⟨17, 19, 18⟩, ⟨20, 21, 22⟩, ⟨21, 23, 22⟩] =
      [⟨0, 2, 1⟩, ⟨1, 2, 3⟩, ⟨4, 6, 5⟩, ⟨5, 6, 7⟩, ⟨8, 10, 9⟩, ⟨9, 10, 11⟩,
        ⟨12, 14, 13⟩, ⟨13, 14, 15⟩, ⟨16, 18, 17⟩, ⟨17, 18, 19⟩, ⟨20, 22, 21⟩, ⟨21, 22, 23⟩] := by
  decide

/-- The winding-order loop on the inverted triangles of the 24-vertex cube. -/
theorem invertWinding_cube24_back :
    invertWinding
      [⟨0, 2, 1⟩, ⟨1, 2, 3⟩, ⟨4, 6, 5⟩, ⟨5, 6, 7⟩, ⟨8, 10, 9⟩, ⟨9, 10, 11⟩,
        ⟨12, 14, 13⟩, ⟨13, 14, 15⟩, ⟨16, 18, 17⟩, ⟨17, 18, 19⟩, ⟨20, 22, 21⟩, ⟨21, 22, 23⟩] =
      [⟨0, 1, 2⟩, ⟨1, 3, 2⟩, ⟨4, 5, 6⟩, ⟨5, 7, 6⟩, ⟨8, 9, 10⟩, ⟨9, 11, 10⟩,
        ⟨12, 13, 14⟩, ⟨13, 15, 14⟩, ⟨16, 17, 18⟩, ⟨17, 19, 18⟩, ⟨20, 21, 22⟩, ⟨21, 23, 22⟩] := by
  decide

/-- The triangles of `cube(radius, false)`, for both vertex layouts. -/
theorem cube_triangles (layout : vertex_layout) (radius : Float) :
    (cube layout radius false).triangles =
      if layout.hasPosition && !layout.hasUV && !layout.hasNormal then
        [⟨0, 1, 2⟩, ⟨1, 3, 2⟩, ⟨1, 5, 3⟩, ⟨5, 7, 3⟩, ⟨5, 4, 7⟩, ⟨4, 6, 7⟩,
        ⟨4, 0, 6⟩, ⟨0, 2, 6⟩, ⟨2, 3, 6⟩, ⟨3, 7, 6⟩, ⟨4, 5, 0⟩, ⟨5, 1, 0⟩]
      else
        [⟨0, 1, 2⟩, ⟨1, 3, 2⟩, ⟨4, 5, 6⟩, ⟨5, 7, 6⟩, ⟨8, 9, 10⟩, ⟨9, 11, 10⟩,
        ⟨12, 13, 14⟩, ⟨13, 15, 14⟩, ⟨16, 17, 18⟩, ⟨17, 19, 18⟩, ⟨20, 21, 22⟩, ⟨21, 23, 22⟩] := by
  obtain ⟨p, u, n⟩ := layout
  cases p <;> cases u <;> cases n <;> simp [cube]

/-- The triangles of `cube(radius, true)`, for both vertex layouts. -/
theorem cube_triangles_inverted (layout : vertex_layout) (radius : Float) :
    (cube layout radius true).triangles =
      if layout.hasPosition && !layout.hasUV && !layout.hasNormal then
        [⟨0, 2, 1⟩, ⟨1, 2, 3⟩, ⟨1, 3, 5⟩, ⟨5, 3, 7⟩, ⟨5, 7, 4⟩, ⟨4, 7, 6⟩,
        ⟨4, 6, 0⟩, ⟨0, 6, 2⟩, ⟨2, 6, 3⟩, ⟨3, 6, 7⟩, ⟨4, 0, 5⟩, ⟨5, 0, 1⟩]
      else
        [⟨0, 2, 1⟩, ⟨1, 2, 3⟩, ⟨4, 6, 5⟩, ⟨5, 6, 7⟩, ⟨8, 10, 9⟩, ⟨9, 10, 11⟩,
        ⟨12, 14, 13⟩, ⟨13, 14, 15⟩, ⟨16, 18, 17⟩, ⟨17, 18, 19⟩, ⟨20, 22, 21⟩, ⟨21, 22, 23⟩] := by
  obtain ⟨p, u, n⟩ := layout
  cases p <;> cases u <;> cases n <;>
    simp [cube, invertWinding_cube8, invertWinding_cube24]

/-- C26 (cube winding inversion): for both vertex layouts (8 position-only vertices, or 24
vertices otherwise) and every radius, `cube(radius, true)` has the same vertices as
`cube(radius, false)`, and its 12 triangles are those of `cube(radius, false)`, in the same
order, each with the first index kept and the second and third exchanged: triangle `i` of
`cube(radius, true)` is `(t.a, t.c, t.b)` for triangle `i`, `t`, of `cube(radius, false)`.
Both triangle lists are given explicitly, and running the exchange loop on the inverted list
gives back the original triangle list. -/
theorem cube_winding_inversion (layout : vertex_layout) (radius : Float) :
    (cube layout radius true).vertices = (cube layout radius false).vertices ∧
      (cube layout radius false).vertices.length =
        (if layout.hasPosition && !layout.hasUV && !layout.hasNormal then 8 else 24) ∧
      (cube layout radius false).triangles.length = 12 ∧
      (cube layout radius true).triangles.length = 12 ∧
      (∀ (i : Nat) (t : indexed_triangle32),
        (cube layout radius false).triangles[i]? = some t →
        (cube layout radius true).triangles[i]? = some (indexed_triangle32.mk t.a t.c t.b)) ∧
      (cube layout radius false).triangles =
        (if layout.hasPosition && !layout.hasUV && !layout.hasNormal then
          [⟨0, 1, 2⟩, ⟨1, 3, 2⟩, ⟨1, 5, 3⟩, ⟨5, 7, 3⟩, ⟨5, 4, 7⟩, ⟨4, 6, 7⟩,
        ⟨4, 0, 6⟩, ⟨0, 2, 6⟩, ⟨2, 3, 6⟩, ⟨3, 7, 6⟩, ⟨4, 5, 0⟩, ⟨5, 1, 0⟩]
        else
          [⟨0, 1, 2⟩, ⟨1, 3, 2⟩, ⟨4, 5, 6⟩, ⟨5, 7, 6⟩, ⟨8, 9, 10⟩, ⟨9, 11, 10⟩,
        ⟨12, 13, 14⟩, ⟨13, 15, 14⟩, ⟨16, 17, 18⟩, ⟨17, 19, 18⟩, ⟨20, 21, 22⟩, ⟨21, 23, 22⟩]) ∧
      (cube layout radius true).triangles =
        (if layout.hasPosition && !layout.hasUV && !layout.hasNormal then
          [⟨0, 2, 1⟩, ⟨1, 2, 3⟩, ⟨1, 3, 5⟩, ⟨5, 3, 7⟩, ⟨5, 7, 4⟩, ⟨4, 7, 6⟩,
        ⟨4, 6, 0⟩, ⟨0, 6, 2⟩, ⟨2, 6, 3⟩, ⟨3, 6, 7⟩, ⟨4, 0, 5⟩, ⟨5, 0, 1⟩]
        else
          [⟨0, 2, 1⟩, ⟨1, 2, 3⟩, ⟨4, 6, 5⟩, ⟨5, 6, 7⟩, ⟨8, 10, 9⟩, ⟨9, 10, 11⟩,
        ⟨12, 14, 13⟩, ⟨13, 14, 15⟩, ⟨16, 18, 17⟩, ⟨17, 18, 19⟩, ⟨20, 22, 21⟩, ⟨21, 22, 23⟩]) ∧
      invertWinding (cube layout radius true).triangles =
        (cube layout radius false).triangles := by
  have hfalse := cube_triangles layout radius
  have htrue := cube_triangles_inverted layout radius
  have hmap : (cube layout radius true).triangles =
      (cube layout radius false).triangles.map
        (fun t => (⟨t.a, t.c, t.b⟩ : indexed_triangle32)) := by
    rw [hfalse, htrue]
    split <;> rfl
  refine ⟨?_, ?_, ?_, ?_, ?_, hfalse, htrue, ?_⟩
  · obtain ⟨p, u, n⟩ := layout
    cases p <;> cases u <;> cases n <;> rfl
  · obtain ⟨p, u, n⟩ := layout
    cases p <;> cases u <;> cases n <;> rfl
  · rw [hfalse]
    split <;> rfl
  · rw [htrue]
    split <;> rfl
  · intro i t ht
    rw [hmap, List.getElem?_map, ht]
    rfl
  · rw [hfalse, htrue]
    split
    · exact invertWinding_cube8_back
    · exact invertWinding_cube24_back

theorem cube_winding_inversion_witness :
    (cube ⟨true, false, false⟩ 1 true).triangles =
        [⟨0, 2, 1⟩, ⟨1, 2, 3⟩, ⟨1, 3, 5⟩, ⟨5, 3, 7⟩, ⟨5, 7, 4⟩, ⟨4, 7, 6⟩,
        ⟨4, 6, 0⟩, ⟨0, 6, 2⟩, ⟨2, 6, 3⟩, ⟨3, 6, 7⟩, ⟨4, 0, 5⟩, ⟨5, 0, 1⟩] ∧
      (cube ⟨true, true, true⟩ 1 true).triangles =
        [⟨0, 2, 1⟩, ⟨1, 2, 3⟩, ⟨4, 6, 5⟩, ⟨5, 6, 7⟩, ⟨8, 10, 9⟩, ⟨9, 10, 11⟩,
        ⟨12, 14, 13⟩, ⟨13, 14, 15⟩, ⟨16, 18, 17⟩, ⟨17, 18, 19⟩, ⟨20, 22, 21⟩, ⟨21, 22, 23⟩] ∧
      (cube ⟨true, true, true⟩ 1 true).triangles[1]? = some ⟨1, 2, 3⟩ ∧
      (cube ⟨true, true, true⟩ 1 false).triangles[1]? = some ⟨1, 3, 2⟩ :=
  ⟨(cube_winding_inversion ⟨true, false, false⟩ 1).2.2.2.2.2.2.1,
    (cube_winding_inversion ⟨true, true, true⟩ 1).2.2.2.2.2.2.1,
    (cube_winding_inversion ⟨true, true, true⟩ 1).2.2.2.2.1 1 ⟨1, 3, 2⟩
      (by rw [(cube_winding_inversion ⟨true, true, true⟩ 1).2.2.2.2.2.1]; rfl),
    by rw [(cube_winding_inversion ⟨true, true, true⟩ 1).2.2.2.2.2.1]; rfl⟩

end cpu_mesh

/-! ## `radicalInverse_VdC` -/

theorem testBit_high (x j : Nat) (hx : x < 2 ^ 32) (hj : 32 ≤ j) : x.testBit j = false :=
  Nat.testBit_lt_two_pow (lt_of_lt_of_le hx (Nat.pow_le_pow_right (by norm_num) hj))

theorem mask_low (m s : Nat) (hm : m < 2 ^ 32)
    (hlow : ∀ j, j < 32 → m.testBit j = decide (j / s % 2 = 0)) (j : Nat) :
    m.testBit j = (decide (j < 32) && decide (j / s % 2 = 0)) := by
  by_cases hj : j < 32
  · simp [hlow j hj, hj]
  · simp [testBit_high m j hm (by omega), hj]

theorem mask_high (m s : Nat) (hm : m < 2 ^ 32)
    (hlow : ∀ j, j < 32 → m.testBit j = decide (j / s % 2 = 1)) (j : Nat) :
    m.testBit j = (decide (j < 32) && decide (j / s % 2 = 1)) := by
  by_cases hj : j < 32
  · simp [hlow j hj, hj]
  · simp [testBit_high m j hm (by omega), hj]

theorem swap_step (x s m1 m2 : Nat) (hs : 0 < s)
    (hm1 : ∀ j, m1.testBit j = (decide (j < 32) && decide (j / s % 2 = 0)))
    (hm2 : ∀ j, m2.testBit j = (decide (j < 32) && decide (j / s % 2 = 1)))
    (k : Nat) (hk : k < 32) (hsrc : swapSource s k < 32) :
    ((((x &&& m1) <<< s) % 2 ^ 32) ||| ((x &&& m2) >>> s)).testBit k =
      x.testBit (swapSource s k) := by
  rw [Nat.testBit_or, Nat.testBit_mod_two_pow, Nat.testBit_shiftLeft, Nat.testBit_shiftRight,
    Nat.testBit_and, Nat.testBit_and, hm1, hm2]
  have hadd : (s + k) / s = k / s + 1 := by
    rw [Nat.add_comm, Nat.add_div_right k hs]
  unfold swapSource at hsrc ⊢
  by_cases hpar : k / s % 2 = 0
  · rw [if_pos hpar] at hsrc ⊢
    have h2 : (s + k) / s % 2 = 1 := by omega
    have h3 : s + k < 32 := by omega
    have h1 : ¬ (s ≤ k ∧ (k - s) / s % 2 = 0) := by
      rintro ⟨hle, hp⟩
      have := Nat.div_eq_sub_div hs hle
      omega
    by_cases hle : s ≤ k
    · have hp : ¬ (k - s) / s % 2 = 0 := fun hp => h1 ⟨hle, hp⟩
      simp [hk, hle, hp, h2, h3, Nat.add_comm k s]
    · simp [hk, hle, h2, h3, Nat.add_comm k s]
  · rw [if_neg hpar] at hsrc ⊢
    have hle : s ≤ k := by
      by_contra hlt
      have : k / s = 0 := Nat.div_eq_of_lt (by omega)
      omega
    have hsub := Nat.div_eq_sub_div hs hle
    have hp : (k - s) / s % 2 = 0 := by omega
    have h2 : ¬ (s + k) / s % 2 = 1 := by omega
    have h3 : k - s < 32 := by omega
    simp [hk, hle, hp, h2, h3]

theorem swap_step16 (x : Nat) (hx : x < 2 ^ 32) (k : Nat) (hk : k < 32) :
    (((x <<< 16) % 2 ^ 32) ||| (x >>> 16)).testBit k = x.testBit (swapSource 16 k) := by
  rw [Nat.testBit_or, Nat.testBit_mod_two_pow, Nat.testBit_shiftLeft, Nat.testBit_shiftRight]
  unfold swapSource
  by_cases hlt : k < 16
  · have hpar : k / 16 % 2 = 0 := by omega
    have hle : ¬ 16 ≤ k := by omega
    simp [hk, hle, hpar, Nat.add_comm k 16]
  · have hpar : ¬ k / 16 % 2 = 0 := by omega
    have hle : 16 ≤ k := by omega
    simp [hk, hle, hpar, testBit_high x (16 + k) hx (by omega)]

theorem mask1_low : ∀ j, j < 32 → Nat.testBit 0x55555555 j = decide (j / 1 % 2 = 0) := by
  intro j hj
  interval_cases j <;> rfl

theorem mask1_high : ∀ j, j < 32 → Nat.testBit 0xAAAAAAAA j = decide (j / 1 % 2 = 1) := by
  intro j hj
  interval_cases j <;> rfl

theorem mask2_low : ∀ j, j < 32 → Nat.testBit 0x33333333 j = decide (j / 2 % 2 = 0) := by
  intro j hj
  interval_cases j <;> rfl

theorem mask2_high : ∀ j, j < 32 → Nat.testBit 0xCCCCCCCC j = decide (j / 2 % 2 = 1) := by
  intro j hj
  interval_cases j <;> rfl

theorem mask4_low : ∀ j, j < 32 → Nat.testBit 0x0F0F0F0F j = decide (j / 4 % 2 = 0) := by
  intro j hj
  interval_cases j <;> rfl

theorem mask4_high : ∀ j, j < 32 → Nat.testBit 0xF0F0F0F0 j = decide (j / 4 % 2 = 1) := by
  intro j hj
  interval_cases j <;> rfl

theorem mask8_low : ∀ j, j < 32 → Nat.testBit 0x00FF00FF j = decide (j / 8 % 2 = 0) := by
  intro j hj
  interval_cases j <;> rfl

theorem mask8_high : ∀ j, j < 32 → Nat.testBit 0xFF00FF00 j = decide (j / 8 % 2 = 1) := by
  intro j hj
  interval_cases j <;> rfl

theorem swapSource_lt (s k : Nat) (hs : s = 1 ∨ s = 2 ∨ s = 4 ∨ s = 8 ∨ s = 16) (hk : k < 32) :
    swapSource s k < 32 := by
  unfold swapSource
  rcases hs with h | h | h | h | h <;> subst h <;> split <;> omega

theorem swapSource_all (k : Nat) (hk : k < 32) :
    swapSource 16 (swapSource 1 (swapSource 2 (swapSource 4 (swapSource 8 k)))) = 31 - k := by
  interval_cases k <;> rfl

theorem bits_testBit (bits k : Nat) (hbits : bits < 2 ^ 32) (hk : k < 32) :
    (pbr.radicalInverse_VdC_bits bits).testBit k = bits.testBit (31 - k) := by
  have h8 := swapSource_lt 8 k (by simp) hk
  have h4 := swapSource_lt 4 _ (by simp) h8
  have h2 := swapSource_lt 2 _ (by simp) h4
  have h1 := swapSource_lt 1 _ (by simp) h2
  unfold pbr.radicalInverse_VdC_bits
  simp only []
  rw [swap_step _ 8 _ _ (by norm_num) (mask_low _ 8 (by norm_num) mask8_low)
      (mask_high _ 8 (by norm_num) mask8_high) k hk h8,
    swap_step _ 4 _ _ (by norm_num) (mask_low _ 4 (by norm_num) mask4_low)
      (mask_high _ 4 (by norm_num) mask4_high) _ h8 h4,
    swap_step _ 2 _ _ (by norm_num) (mask_low _ 2 (by norm_num) mask2_low)
      (mask_high _ 2 (by norm_num) mask2_high) _ h4 h2,
    swap_step _ 1 _ _ (by norm_num) (mask_low _ 1 (by norm_num) mask1_low)
      (mask_high _ 1 (by norm_num) mask1_high) _ h2 h1,
    swap_step16 bits hbits _ h1, swapSource_all k hk]

theorem bits_lt (bits : Nat) : pbr.radicalInverse_VdC_bits bits < 2 ^ 32 := by
  unfold pbr.radicalInverse_VdC_bits
  simp only []
  apply Nat.or_lt_two_pow
  · exact Nat.mod_lt _ (by norm_num)
  · rw [Nat.shiftRight_eq_div_pow]
    apply lt_of_le_of_lt (Nat.div_le_self _ _)
    apply lt_of_le_of_lt Nat.and_le_right
    norm_num

theorem bits_involutive (bits : Nat) (hbits : bits < 2 ^ 32) :
    pbr.radicalInverse_VdC_bits (pbr.radicalInverse_VdC_bits bits) = bits := by
  apply Nat.eq_of_testBit_eq
  intro i
  by_cases hi : i < 32
  · rw [bits_testBit _ i (bits_lt bits) hi, bits_testBit bits (31 - i) hbits (by omega)]
    congr 1
    omega
  · rw [testBit_high _ i (bits_lt _) (by omega), testBit_high bits i hbits (by omega)]

/-- C27 (`radicalInverse_VdC` bit reversal): for every 32-bit unsigned input, the integer
obtained after the five shift-and-mask steps is the bit reversal of the input: it is a 32-bit
value whose bit `k` equals bit `31 - k` of the input for every `k` in 0..31; the five steps
applied twice give back the input; and the copies in pbr.h and pbr_common.h compute the same
integer. -/
theorem radicalInverse_bit_reversal (bits : Nat) (hbits : bits < 2 ^ 32) :
    (∀ k, k < 32 →
        (pbr.radicalInverse_VdC_bits bits).testBit k = bits.testBit (31 - k)) ∧
      pbr.radicalInverse_VdC_bits bits < 2 ^ 32 ∧
      pbr.radicalInverse_VdC_bits (pbr.radicalInverse_VdC_bits bits) = bits ∧
      pbr_common.radicalInverse_VdC_bits bits = pbr.radicalInverse_VdC_bits bits :=
  ⟨fun k hk => bits_testBit bits k hbits hk, bits_lt bits, bits_involutive bits hbits, rfl⟩

theorem radicalInverse_bit_reversal_witness :
    (∀ k, k < 32 →
        (pbr.radicalInverse_VdC_bits 0x12345678).testBit k = Nat.testBit 0x12345678 (31 - k)) ∧
      pbr.radicalInverse_VdC_bits 0x12345678 < 2 ^ 32 ∧
      pbr.radicalInverse_VdC_bits (pbr.radicalInverse_VdC_bits 0x12345678) = 0x12345678 ∧
      pbr_common.radicalInverse_VdC_bits 0x12345678 =
        pbr.radicalInverse_VdC_bits 0x12345678 :=
  radicalInverse_bit_reversal 0x12345678 (by norm_num)

/-! ## Counts and indices of `cpu_mesh::sphere` and `cpu_mesh::capsule` -/

namespace cpu_mesh

/-- C22 (sphere generator counts): for `slices > 2` and `rows > 0`, with `slices*rows+2` and
`2*rows*slices` below 2^32, `sphere` passes its assertions and writes exactly `slices*rows+2`
vertices, at the indices `0, ..., slices*rows+1`, and exactly `2*rows*slices` triangles, at the
indices `0, ..., 2*rows*slices-1`; both arrays have exactly these sizes, so no write is past
the end of its array. -/
theorem sphere_counts (slices rows : Nat) (hs : 2 < slices) (hr : 0 < rows)
    (hV : slices * rows + 2 < 2 ^ 32) (hT : 2 * rows * slices < 2 ^ 32) :
    ∃ r, sphere slices rows = some r ∧
      r.vertexCapacity = slices * rows + 2 ∧ r.triangleCapacity = 2 * rows * slices ∧
      r.arrays.vertexWrites = List.range (slices * rows + 2) ∧
      r.arrays.vertIndex = slices * rows + 2 ∧
      r.arrays.triangleWrites.map Prod.fst = List.range (2 * rows * slices) ∧
      r.arrays.triIndex = 2 * rows * slices ∧
      (∀ i ∈ r.arrays.vertexWrites, i < r.vertexCapacity) ∧
      (∀ w ∈ r.arrays.triangleWrites, w.1 < r.triangleCapacity) := by
  obtain ⟨R, rfl⟩ : ∃ R, rows = R + 1 := ⟨rows - 1, by omega⟩
  obtain ⟨m, hm, h1, h2, h3, h4, _⟩ := sphere_indexed slices R hs hV hT
  refine ⟨_, hm, rfl, rfl, h1, h2, h4, h3, ?_, ?_⟩
  · intro i hi
    rw [h1] at hi
    exact List.mem_range.mp hi
  · intro w hw
    have hmem : w.1 ∈ m.triangleWrites.map Prod.fst := List.mem_map_of_mem Prod.fst hw
    rw [h4] at hmem
    exact List.mem_range.mp hmem

theorem sphere_counts_witness :
    ∃ r, sphere 3 2 = some r ∧
      r.vertexCapacity = 3 * 2 + 2 ∧ r.triangleCapacity = 2 * 2 * 3 ∧
      r.arrays.vertexWrites = List.range (3 * 2 + 2) ∧
      r.arrays.vertIndex = 3 * 2 + 2 ∧
      r.arrays.triangleWrites.map Prod.fst = List.range (2 * 2 * 3) ∧
      r.arrays.triIndex = 2 * 2 * 3 ∧
      (∀ i ∈ r.arrays.vertexWrites, i < r.vertexCapacity) ∧
      (∀ w ∈ r.arrays.triangleWrites, w.1 < r.triangleCapacity) :=
  sphere_counts 3 2 (by decide) (by decide) (by norm_num) (by norm_num)

/-- C23 (sphere index validity): for `slices > 2` and `rows > 0` without 32-bit overflow,
`sphere` returns and every index `a`, `b`, `c` of every triangle it writes is strictly below
the vertex count `slices*rows+2`; none of the unsigned subtractions that form the top-cap
indices (`vertIndex - 2 - x`, `vertIndex - 3 - x` for `x < slices - 1`, `vertIndex - 1`,
`vertIndex - 2`, `vertIndex - 1 - slices`) wraps around. -/
theorem sphere_index_validity (slices rows : Nat) (hs : 2 < slices) (hr : 0 < rows)
    (hV : slices * rows + 2 < 2 ^ 32) (hT : 2 * rows * slices < 2 ^ 32) :
    ∃ r, sphere slices rows = some r ∧
      (∀ w ∈ r.arrays.triangleWrites,
        w.2.a < slices * rows + 2 ∧ w.2.b < slices * rows + 2 ∧ w.2.c < slices * rows + 2) ∧
      (∀ x, x < slices - 1 →
        3 + x ≤ r.arrays.vertIndex ∧
        sub32 (sub32 r.arrays.vertIndex 2) x = r.arrays.vertIndex - 2 - x ∧
        sub32 (sub32 r.arrays.vertIndex 3) x = r.arrays.vertIndex - 3 - x) ∧
      1 + slices ≤ r.arrays.vertIndex ∧
      sub32 (sub32 r.arrays.vertIndex 1) slices = r.arrays.vertIndex - 1 - slices ∧
      sub32 r.arrays.vertIndex 2 = r.arrays.vertIndex - 2 ∧
      sub32 r.arrays.vertIndex 1 = r.arrays.vertIndex - 1 := by
  obtain ⟨R, rfl⟩ : ∃ R, rows = R + 1 := ⟨rows - 1, by omega⟩
  obtain ⟨m, hm, _, h2, _, _, h5⟩ := sphere_indexed slices R hs hV hT
  have hmul : slices * (R + 1) = R * slices + slices := by ring
  have hVm : m.vertIndex = R * slices + slices + 2 := by rw [h2, hmul]
  rw [hmul] at hV
  refine ⟨_, hm, h5, ?_, ?_, ?_, ?_, ?_⟩
  · intro x hx
    simp only [hVm]
    refine ⟨by omega, ?_, ?_⟩
    · simp (disch := omega) only [sub32_eq]
    · simp (disch := omega) only [sub32_eq]
  · simp only [hVm]
    omega
  · simp only [hVm]
    simp (disch := omega) only [sub32_eq]
  · simp only [hVm]
    simp (disch := omega) only [sub32_eq]
  · simp only [hVm]
    simp (disch := omega) only [sub32_eq]

theorem sphere_index_validity_witness :
    ∃ r, sphere 3 2 = some r ∧
      (∀ w ∈ r.arrays.triangleWrites,
        w.2.a < 3 * 2 + 2 ∧ w.2.b < 3 * 2 + 2 ∧ w.2.c < 3 * 2 + 2) ∧
      (∀ x, x < 3 - 1 →
        3 + x ≤ r.arrays.vertIndex ∧
        sub32 (sub32 r.arrays.vertIndex 2) x = r.arrays.vertIndex - 2 - x ∧
        sub32 (sub32 r.arrays.vertIndex 3) x = r.arrays.vertIndex - 3 - x) ∧
      1 + 3 ≤ r.arrays.vertIndex ∧
      sub32 (sub32 r.arrays.vertIndex 1) 3 = r.arrays.vertIndex - 1 - 3 ∧
      sub32 r.arrays.vertIndex 2 = r.arrays.vertIndex - 2 ∧
      sub32 r.arrays.vertIndex 1 = r.arrays.vertIndex - 1 :=
  sphere_index_validity 3 2 (by decide) (by decide) (by norm_num) (by norm_num)

/-- C24 (capsule generator counts): for `slices > 2` and odd `rows > 0` without 32-bit
overflow, `capsule` passes its assertions and writes exactly `slices*(rows+1)+2` vertices, at
the indices from 0, and exactly `2*(rows+1)*slices` triangles, at the indices from 0; these are
the sizes of the two arrays it allocates. The two ring loops together write
`2*(rows/2+1)*slices` vertices under integer division, which is `slices*(rows+1)` because
`rows` is odd. -/
theorem capsule_counts (slices rows : Nat) (hs : 2 < slices) (_hr : 0 < rows)
    (hodd : rows % 2 = 1)
    (hV : slices * (rows + 1) + 2 < 2 ^ 32) (hT : 2 * (rows + 1) * slices < 2 ^ 32) :
    ∃ r, capsule slices rows = some r ∧
      r.vertexCapacity = slices * (rows + 1) + 2 ∧
      r.triangleCapacity = 2 * (rows + 1) * slices ∧
      r.arrays.vertexWrites = List.range (slices * (rows + 1) + 2) ∧
      r.arrays.vertIndex = slices * (rows + 1) + 2 ∧
      r.arrays.triangleWrites.map Prod.fst = List.range (2 * (rows + 1) * slices) ∧
      r.arrays.triIndex = 2 * (rows + 1) * slices ∧
      r.arrays.vertIndex = 1 + 2 * (rows / 2 + 1) * slices + 1 := by
  obtain ⟨m, hm, h1, h2, h3, h4, _⟩ := capsule_indexed slices rows hs hodd hV hT
  refine ⟨_, hm, rfl, rfl, h1, h2, h4, h3, ?_⟩
  have hrows : rows = 2 * (rows / 2) + 1 := by omega
  have hring : 2 * (rows / 2 + 1) * slices = slices * (rows + 1) := by
    have h2r : 2 * (rows / 2 + 1) = rows + 1 := by omega
    rw [h2r, Nat.mul_comm]
  show m.vertIndex = 1 + 2 * (rows / 2 + 1) * slices + 1
  rw [h2, hring]
  omega

theorem capsule_counts_witness :
    ∃ r, capsule 3 3 = some r ∧
      r.vertexCapacity = 3 * (3 + 1) + 2 ∧
      r.triangleCapacity = 2 * (3 + 1) * 3 ∧
      r.arrays.vertexWrites = List.range (3 * (3 + 1) + 2) ∧
      r.arrays.vertIndex = 3 * (3 + 1) + 2 ∧
      r.arrays.triangleWrites.map Prod.fst = List.range (2 * (3 + 1) * 3) ∧
      r.arrays.triIndex = 2 * (3 + 1) * 3 ∧
      r.arrays.vertIndex = 1 + 2 * (3 / 2 + 1) * 3 + 1 :=
  capsule_counts 3 3 (by decide) (by decide) (by decide) (by norm_num) (by norm_num)

/-- C25 (capsule index validity): for `slices > 2` and odd `rows > 0` without 32-bit overflow,
`capsule` returns and every index of every triangle it writes is strictly below the number of
vertices written, `slices*(rows+1)+2`. -/
theorem capsule_index_validity (slices rows : Nat) (hs : 2 < slices) (_hr : 0 < rows)
    (hodd : rows % 2 = 1)
    (hV : slices * (rows + 1) + 2 < 2 ^ 32) (hT : 2 * (rows + 1) * slices < 2 ^ 32) :
    ∃ r, capsule slices rows = some r ∧
      r.arrays.vertIndex = slices * (rows + 1) + 2 ∧
      r.arrays.vertexWrites.length = slices * (rows + 1) + 2 ∧
      ∀ w ∈ r.arrays.triangleWrites,
        w.2.a < slices * (rows + 1) + 2 ∧ w.2.b < slices * (rows + 1) + 2 ∧
          w.2.c < slices * (rows + 1) + 2 := by
  obtain ⟨m, hm, h1, h2, _, _, h5⟩ := capsule_indexed slices rows hs hodd hV hT
  exact ⟨_, hm, h2, by rw [h1, List.length_range], h5⟩

theorem capsule_index_validity_witness :
    ∃ r, capsule 3 3 = some r ∧
      r.arrays.vertIndex = 3 * (3 + 1) + 2 ∧
      r.arrays.vertexWrites.length = 3 * (3 + 1) + 2 ∧
      ∀ w ∈ r.arrays.triangleWrites,
        w.2.a < 3 * (3 + 1) + 2 ∧ w.2.b < 3 * (3 + 1) + 2 ∧ w.2.c < 3 * (3 + 1) + 2 :=
  capsule_index_validity 3 3 (by decide) (by decide) (by decide) (by norm_num) (by norm_num)

end cpu_mesh
